import Mathlib

/-!
Verification of the cellular-automata editor core.

The definitions below are a shallow embedding of the algorithmic core of
`src/src/App.tsx`: the elementary-cellular-automaton rule engine
(`getRuleLookup`, `applyRule`, the row-by-row animation loop of
`generatePattern`) and the SVG vector exporter (`generateSVG`, in its two
source variants).  JavaScript numbers that are always naturals are modelled
as `Nat`; possibly negative array indices as `Int`; `null` grid cells as
`Option.none`; JS string building as `String` concatenation.  The `while`
loop of the exporter's flood fill is modelled with an explicit fuel
parameter that is proved sufficient for the fuel used by the exporter.
-/

/-! ## Rule engine -/

/-- Binary digits of a natural number, most significant first, as produced by
JavaScript `n.toString(2)` (so `0` yields the single digit `0`).  The fuel
argument of `toBinAux` only drives structural recursion; `toBin` supplies
enough of it. -/
def toBinAux : Nat → Nat → List Bool
  | 0, _ => []
  | fuel + 1, n =>
    if n < 2 then [decide (n = 1)] else toBinAux fuel (n / 2) ++ [decide (n % 2 = 1)]

/-- Binary expansion of `n`, most significant digit first, mirroring
JavaScript `n.toString(2)` with `true` for the character `1`. -/
def toBin (n : Nat) : List Bool :=
  toBinAux (n + 1) n

/-- Left padding with `0` digits up to length 8, mirroring
`.padStart(8, '0')` (a string of length ≥ 8 is returned unchanged). -/
def padStart8 (l : List Bool) : List Bool :=
  List.replicate (8 - l.length) false ++ l

/-- Embedding of `getRuleLookup` (App.tsx): the rule number's binary
expansion is padded to 8 digits and the table binds pattern `"111"` to
digit 0, `"110"` to digit 1, ..., `"000"` to digit 7.  A pattern is the
triple (left, center, right) of neighbor cells. -/
def getRuleLookup (ruleNumber : Nat) : Bool → Bool → Bool → Bool :=
  let binary := padStart8 (toBin ruleNumber)
  fun l c r =>
    match l, c, r with
    | true,  true,  true  => binary.getD 0 false
    | true,  true,  false => binary.getD 1 false
    | true,  false, true  => binary.getD 2 false
    | true,  false, false => binary.getD 3 false
    | false, true,  true  => binary.getD 4 false
    | false, true,  false => binary.getD 5 false
    | false, false, true  => binary.getD 6 false
    | false, false, false => binary.getD 7 false

/-- JavaScript `prevRow[i] || false` for an `Int` index: any out-of-range
access (including a negative index) yields `undefined`, hence `false`. -/
def jsGetD (row : List Bool) (i : Int) : Bool :=
  if i < 0 then false else row.getD i.toNat false

/-- Embedding of `applyRule` (App.tsx): map over the indices of the previous
row; at index `i` the neighborhood is `prevRow[i-1] || false`, `prevRow[i]`,
`prevRow[i+1] || false`, looked up in the rule table. -/
def applyRule (prevRow : List Bool) (ruleLookup : Bool → Bool → Bool → Bool) : List Bool :=
  (List.range prevRow.length).map fun (i : Nat) =>
    ruleLookup (jsGetD prevRow ((i : Int) - 1)) (prevRow.getD i false)
      (jsGetD prevRow ((i : Int) + 1))

/-- Grid state during generation: row 0 is the seed, not-yet-generated rows
are `none` (the JS `null` fill). -/
def initialGrid (seed : List Bool) (rows : Nat) : List (Option (List Bool)) :=
  (List.range rows).map fun i => if i = 0 then some seed else none

/-- Embedding of the `animate` loop of `generatePattern` (App.tsx): for
`currentRow = 1, ..., rows - 1` in order, row `currentRow` is set to
`applyRule` of row `currentRow - 1`.  The 50 ms pacing of the original
timeout chain is irrelevant to the produced grid and is dropped. -/
def generateGrid (ruleLookup : Bool → Bool → Bool → Bool) (seed : List Bool)
    (rows : Nat) : List (Option (List Bool)) :=
  (List.range' 1 (rows - 1)).foldl
    (fun grid currentRow =>
      grid.set currentRow
        (some (applyRule ((grid.getD (currentRow - 1) none).getD []) ruleLookup)))
    (initialGrid seed rows)

/-- Batch generation, following the spec's words: `generate` "repeatedly
applies `stepRow` starting from `seedRow` as row 0", so row `k` is the
`k`-fold application of the stepping function to the seed. -/
def stepIterated (ruleLookup : Bool → Bool → Bool → Bool) (seed : List Bool) : Nat → List Bool
  | 0 => seed
  | k + 1 => applyRule (stepIterated ruleLookup seed k) ruleLookup

/-- Decimal digits of a natural number, most significant first, as produced
by JavaScript number-to-string conversion inside a template literal. -/
def natToStrAux : Nat → Nat → List Char
  | 0, _ => []
  | fuel + 1, n =>
    if n < 10 then [Nat.digitChar n] else natToStrAux fuel (n / 10) ++ [Nat.digitChar (n % 10)]

/-- Decimal string of a natural number, mirroring JS interpolation of a
natural-valued number. -/
def natToStr (n : Nat) : String :=
  ⟨natToStrAux (n + 1) n⟩

/-- Embedding of `popularRules` (App.tsx), keeping only the rule numbers. -/
def popularRuleNumbers : List Nat :=
  [30, 90, 110, 184, 150, 54, 126, 18, 22, 73]

/-- Embedding of `filteredRules` (App.tsx): the rule indices 0..255 whose
decimal representation contains the search string as a contiguous substring,
via JS `r.toString().includes(ruleSearch)`. -/
def filteredRules (ruleSearch : String) : List Nat :=
  (List.range 256).filter fun r => decide (ruleSearch.data <:+: (natToStr r).data)

/-- Errors of the validation boundary described by the spec's error
taxonomy. -/
inductive CAError where
  | invalidRuleIndex
deriving DecidableEq

/-- Modelled from the spec: the source has no standalone rule-index
validation function (the UI only offers indices 0..255), so the spec's
boundary contract "`InvalidRuleIndex` — rule index outside [0,255]; reject
before table compilation, never silently clamp" is modelled here: an
in-range index is compiled with `getRuleLookup`, an out-of-range one is
rejected without compiling. -/
def compileRuleChecked (n : Int) : Except CAError (Bool → Bool → Bool → Bool) :=
  if 0 ≤ n ∧ n ≤ 255 then Except.ok (getRuleLookup n.toNat) else Except.error CAError.invalidRuleIndex

/-! ## Rule engine lemmas -/

lemma applyRule_length (row : List Bool) (table : Bool → Bool → Bool → Bool) :
    (applyRule row table).length = row.length := by
  simp [applyRule]

lemma applyRule_getD (table : Bool → Bool → Bool → Bool) (row : List Bool) (i : Nat)
    (hi : i < row.length) :
    (applyRule row table).getD i false =
      table (if i = 0 then false else row.getD (i - 1) false)
        (row.getD i false)
        (if i + 1 < row.length then row.getD (i + 1) false else false) := by
  have hmap : (applyRule row table)[i]? =
      some (table (jsGetD row ((i : Int) - 1)) (row.getD i false)
        (jsGetD row ((i : Int) + 1))) := by
    rw [applyRule, List.getElem?_map, List.getElem?_range hi]
    rfl
  rw [List.getD_eq_getElem?_getD, hmap, Option.getD_some]
  have hleft : jsGetD row ((i : Int) - 1) =
      if i = 0 then false else row.getD (i - 1) false := by
    cases i with
    | zero => rfl
    | succ k =>
      have h0 : ¬ ((k + 1 : Int) - 1 < 0) := by omega
      have h1 : ((k + 1 : Int) - 1).toNat = k := by omega
      simp [jsGetD, h0, h1]
  have hright : jsGetD row ((i : Int) + 1) =
      if i + 1 < row.length then row.getD (i + 1) false else false := by
    have h0 : ¬ ((i : Int) + 1 < 0) := by omega
    have h1 : ((i : Int) + 1).toNat = i + 1 := by omega
    rw [jsGetD, if_neg h0, h1]
    by_cases h2 : i + 1 < row.length
    · rw [if_pos h2]
    · rw [if_neg h2, List.getD_eq_getElem?_getD, List.getElem?_eq_none (by omega),
        Option.getD_none]
  rw [hleft, hright]

lemma initialGrid_eq (seed : List Bool) (rows : Nat)
    (table : Bool → Bool → Bool → Bool) :
    initialGrid seed rows =
      (List.range rows).map
        (fun k => if k < 1 then some (stepIterated table seed k) else none) := by
  unfold initialGrid
  refine List.map_congr_left fun k _ => ?_
  cases k with
  | zero => rfl
  | succ m => simp

lemma generateGrid_aux (table : Bool → Bool → Bool → Bool) (seed : List Bool)
    (rows : Nat) :
    ∀ m, m + 1 ≤ rows →
      (List.range' 1 m).foldl
        (fun grid currentRow =>
          grid.set currentRow
            (some (applyRule ((grid.getD (currentRow - 1) none).getD []) table)))
        (initialGrid seed rows) =
      (List.range rows).map
        (fun k => if k < m + 1 then some (stepIterated table seed k) else none) := by
  intro m
  induction m with
  | zero => intro _; simpa using initialGrid_eq seed rows table
  | succ m ih =>
    intro hm
    have hrange : List.range' 1 (m + 1) = List.range' 1 m ++ [1 + m] := by
      simpa using @List.range'_concat 1 1 m
    rw [hrange, List.foldl_append, ih (by omega), List.foldl_cons, List.foldl_nil]
    have hmrows : m < rows := by omega
    have hget :
        ((List.range rows).map
            (fun k => if k < m + 1 then some (stepIterated table seed k) else none)).getD
          (1 + m - 1) none = some (stepIterated table seed m) := by
      have h1 : 1 + m - 1 = m := by omega
      rw [h1, List.getD_eq_getElem?_getD, List.getElem?_map, List.getElem?_range hmrows]
      simp
    rw [hget]
    simp only [Option.getD_some]
    refine List.ext_getElem? fun j => ?_
    rw [List.getElem?_set]
    by_cases hj : 1 + m = j
    · subst hj
      have hlen : 1 + m <
          ((List.range rows).map
            (fun k => if k < m + 1 then some (stepIterated table seed k) else none)).length := by
        simpa using (by omega : 1 + m < rows)
      rw [if_pos rfl, if_pos hlen, List.getElem?_map, List.getElem?_range (by omega)]
      have : stepIterated table seed (1 + m) =
          applyRule (stepIterated table seed m) table := by
        have h2 : 1 + m = m + 1 := by omega
        rw [h2]
        rfl
      simp [this, Nat.lt_irrefl]
      omega
    · rw [if_neg hj, List.getElem?_map, List.getElem?_map]
      by_cases hjr : j < rows
      · rw [List.getElem?_range hjr]
        have : (if j < m + 1 then some (stepIterated table seed j) else none) =
            (if j < m + 1 + 1 then some (stepIterated table seed j) else none) := by
          by_cases hjm : j < m + 1
          · rw [if_pos hjm, if_pos (by omega)]
          · rw [if_neg hjm, if_neg (by omega)]
        simp [this]
      · rw [List.getElem?_eq_none (by simpa using Nat.le_of_not_lt hjr)]
        rfl

/-! ## Claims about the rule engine -/

set_option maxRecDepth 10000 in
/-- C1: for every rule index in [0,255], the compiled lookup table binds the
3-cell neighborhood with value `v = 4*left + 2*center + right` to position
`7 - v` of the 8-digit zero-padded most-significant-first binary expansion of
the index, which is exactly bit `v` of the index; so pattern `111` reads the
most significant bit of the expansion and `000` the least significant bit,
i.e. bit `i` (0-indexed from the most significant) is bound to `patterns[i]`
for `patterns = [111,110,101,100,011,010,001,000]`. -/
theorem claim_C1_rule_table_bits :
    ∀ n : Nat, n < 256 → ∀ l c r : Bool,
      getRuleLookup n l c r =
        (padStart8 (toBin n)).getD (7 - (4 * l.toNat + 2 * c.toNat + r.toNat)) false ∧
      getRuleLookup n l c r = n.testBit (4 * l.toNat + 2 * c.toNat + r.toNat) := by
  decide

/-- Witness for C1 at rule 30 and pattern `111`. -/
theorem claim_C1_rule_table_bits_witness :
    getRuleLookup 30 true true true =
      (padStart8 (toBin 30)).getD
        (7 - (4 * Bool.toNat true + 2 * Bool.toNat true + Bool.toNat true)) false ∧
    getRuleLookup 30 true true true =
      Nat.testBit 30 (4 * Bool.toNat true + 2 * Bool.toNat true + Bool.toNat true) :=
  claim_C1_rule_table_bits 30 (by decide) true true true

/-- C2: stepping a row never wraps around: the produced row has the same
length, and the cell at index `i` is the table applied to the neighborhood
whose left neighbor is `false` when `i = 0` (not the rightmost cell) and
whose right neighbor is `false` when `i` is the last index (not the leftmost
cell), regardless of the row's contents. -/
theorem claim_C2_boundary_no_wrap :
    ∀ (table : Bool → Bool → Bool → Bool) (row : List Bool) (i : Nat),
      i < row.length →
      (applyRule row table).length = row.length ∧
      (applyRule row table).getD i false =
        table (if i = 0 then false else row.getD (i - 1) false)
          (row.getD i false)
          (if i + 1 < row.length then row.getD (i + 1) false else false) :=
  fun table row i hi => ⟨applyRule_length row table, applyRule_getD table row i hi⟩

/-- Witness for C2 on a row with both edge cells filled, under rule 30. -/
theorem claim_C2_boundary_no_wrap_witness :
    (applyRule [true, false, true] (getRuleLookup 30)).length =
      ([true, false, true] : List Bool).length ∧
    (applyRule [true, false, true] (getRuleLookup 30)).getD 0 false =
      getRuleLookup 30
        (if 0 = 0 then false else ([true, false, true] : List Bool).getD (0 - 1) false)
        (([true, false, true] : List Bool).getD 0 false)
        (if 0 + 1 < ([true, false, true] : List Bool).length then
          ([true, false, true] : List Bool).getD (0 + 1) false
        else false) :=
  claim_C2_boundary_no_wrap (getRuleLookup 30) [true, false, true] 0 (by decide)

/-- C9: generating the grid one row at a time, as the animation loop does
(each new row is `applyRule` of the immediately preceding row), produces for
every seed, rule table and row count exactly the batch result: row `k` is
the `k`-fold iteration of the stepping function on the seed, with no other
state involved. -/
theorem claim_C9_incremental_eq_batch :
    ∀ (table : Bool → Bool → Bool → Bool) (seed : List Bool) (rows : Nat),
      generateGrid table seed rows =
        (List.range rows).map (fun k => some (stepIterated table seed k)) := by
  intro table seed rows
  cases rows with
  | zero => rfl
  | succ r =>
    rw [generateGrid]
    have h1 : r + 1 - 1 = r := by omega
    rw [h1, generateGrid_aux table seed (r + 1) r (by omega)]
    refine List.map_congr_left fun k hk => ?_
    rw [if_pos (by simpa using List.mem_range.mp hk)]

/-- C4: an out-of-range rule index is rejected before table compilation.
In the source every selectable rule index lies in [0,255] (the search list
is drawn from 0..255 and every popular rule number is at most 255), so the
lookup-table compiler is only ever invoked in range; the spec's boundary
validator (modelled as `compileRuleChecked`) rejects any index outside
[0,255] with `InvalidRuleIndex` and compiles — without clamping — exactly
the in-range indices. -/
theorem claim_C4_rule_index_validation :
    (∀ (s : String) (r : Nat), r ∈ filteredRules s → r ≤ 255) ∧
    (∀ r ∈ popularRuleNumbers, r ≤ 255) ∧
    (∀ n : Int, n < 0 ∨ 255 < n →
      compileRuleChecked n = Except.error CAError.invalidRuleIndex) ∧
    (∀ n : Int, 0 ≤ n → n ≤ 255 →
      compileRuleChecked n = Except.ok (getRuleLookup n.toNat)) := by
  refine ⟨?_, ?_, ?_, ?_⟩
  · intro s r hr
    have := (List.mem_filter.mp hr).1
    have := List.mem_range.mp this
    omega
  · decide
  · intro n hn
    rw [compileRuleChecked, if_neg (by omega)]
  · intro n h0 h255
    rw [compileRuleChecked, if_pos ⟨h0, h255⟩]

/-- Witness for C4: rule 30 is searchable and in range, 300 is rejected,
30 compiles. -/
theorem claim_C4_rule_index_validation_witness :
    30 ≤ 255 ∧ 30 ≤ 255 ∧
    compileRuleChecked 300 = Except.error CAError.invalidRuleIndex ∧
    compileRuleChecked 30 = Except.ok (getRuleLookup (Int.toNat 30)) :=
  ⟨claim_C4_rule_index_validation.1 "3" 30 (by decide),
   claim_C4_rule_index_validation.2.1 30 (by decide),
   claim_C4_rule_index_validation.2.2.1 300 (Or.inr (by decide)),
   claim_C4_rule_index_validation.2.2.2 30 (by decide) (by decide)⟩

/-! ## Vector exporter: definitions -/

/-- Cell state of the editor grid: `some true` is filled, `some false` empty,
`none` is the JS `null` of a not-yet-generated row ("unset"). -/
abbrev Cell := Option Bool

/-- Editor grid: a list of rows of cells. -/
abbrev Grid := List (List Cell)

/-- Truthiness test `grid[r] && grid[r][c]` of the source: a cell is filled
exactly when its row exists and the cell holds `true`; a missing row, a
missing cell, `null` and `false` all count as not filled. -/
def cellFilled (grid : Grid) (r c : Nat) : Bool :=
  ((grid.getD r []).getD c none).getD false

/-- Replacement of every unset (`null`) cell by an explicit empty cell,
leaving filled and empty cells unchanged. -/
def eraseUnset (grid : Grid) : Grid :=
  grid.map fun row => row.map fun cell => some (cell.getD false)

/-- Opening tag of the produced SVG document (both source variants). -/
def svgOpen (width height : Nat) : String :=
  "<svg width=\"" ++ natToStr width ++ "\" height=\"" ++ natToStr height ++
    "\" xmlns=\"http://www.w3.org/2000/svg\">"

/-- Rectangle emitted for one filled cell on the zero-radius path:
`cellSize × cellSize` pixels at `(c * cellSize, r * cellSize)`, without any
`rx`/`ry` attribute. -/
def plainRect (cellSize r c : Nat) : String :=
  "<rect x=\"" ++ natToStr (c * cellSize) ++ "\" y=\"" ++ natToStr (r * cellSize) ++
    "\" width=\"" ++ natToStr cellSize ++ "\" height=\"" ++ natToStr cellSize ++
    "\" fill=\"#000\"/>"

/-- Row-major enumeration of all grid positions, the order of the nested
`for (r) for (c)` loops of the source. -/
def cellsRowMajor (rows cols : Nat) : List (Nat × Nat) :=
  (List.range rows).flatMap fun r => (List.range cols).map fun c => (r, c)

/-- Accumulation of the zero-radius rectangles in row-major order
(`rects += ...` in the source), over the filled-cell test `matrix`. -/
def plainRects (matrix : Nat → Nat → Bool) (rows cols cellSize : Nat) : String :=
  (cellsRowMajor rows cols).foldl
    (fun rects p => if matrix p.1 p.2 then rects ++ plainRect cellSize p.1 p.2 else rects) ""

/-- Minimum of a list of naturals, as `Math.min(...)` over a non-empty
argument list (0 for the empty list, which the exporter never passes). -/
def minList : List Nat → Nat
  | [] => 0
  | x :: xs => xs.foldl Nat.min x

/-- Maximum of a list of naturals, as `Math.max(...)` over a non-empty
argument list (0 for the empty list, which the exporter never passes). -/
def maxList : List Nat → Nat
  | [] => 0
  | x :: xs => xs.foldl Nat.max x

/-- Rectangle emitted for a flood-filled component in the first source
variant: the axis-aligned bounding box (min/max row and column scaled by the
cell size), with `rx = ry = roundedCorners` on all corners. -/
def roundedRect (cellSize rc : Nat) (component : List (Nat × Nat)) : String :=
  let minR := minList (component.map Prod.fst)
  let maxR := maxList (component.map Prod.fst)
  let minC := minList (component.map Prod.snd)
  let maxC := maxList (component.map Prod.snd)
  "<rect x=\"" ++ natToStr (minC * cellSize) ++ "\" y=\"" ++ natToStr (minR * cellSize) ++
    "\" width=\"" ++ natToStr ((maxC - minC + 1) * cellSize) ++
    "\" height=\"" ++ natToStr ((maxR - minR + 1) * cellSize) ++
    "\" rx=\"" ++ natToStr rc ++ "\" ry=\"" ++ natToStr rc ++ "\" fill=\"#000\"/>"

/-- Rectangle emitted for a component in the second source variant: a
single cell gets a `cellSize × cellSize` rounded rectangle, a larger
component gets its bounding-box rounded rectangle. -/
def componentRect (cellSize rc : Nat) (component : List (Nat × Nat)) : String :=
  if component.length = 1 then
    let p := component.headD (0, 0)
    "<rect x=\"" ++ natToStr (p.2 * cellSize) ++ "\" y=\"" ++ natToStr (p.1 * cellSize) ++
      "\" width=\"" ++ natToStr cellSize ++ "\" height=\"" ++ natToStr cellSize ++
      "\" rx=\"" ++ natToStr rc ++ "\" ry=\"" ++ natToStr rc ++ "\" fill=\"#000\"/>"
  else
    roundedRect cellSize rc component

/-- Embedding of the exporter's flood-fill `while` loop (identical in both
source variants).  The stack holds possibly negative JS indices, so entries
are pairs of integers; popping an entry first checks bounds, the visited
mark and the matrix, and on success marks the cell visited, appends it to
the component and pushes its four neighbors (the JS `push` order makes
`(cr, cc+1)` the next pop).  The `fuel` argument only bounds the number of
iterations; `ffFuel` below is proved to be enough for the loop to drain its
stack. -/
def floodFill (matrix : Nat → Nat → Bool) (rows cols : Nat) :
    Nat → List (Int × Int) → List (Nat × Nat) → List (Nat × Nat) →
    List (Nat × Nat) × List (Nat × Nat)
  | 0, _, visited, component => (component, visited)
  | _ + 1, [], visited, component => (component, visited)
  | fuel + 1, (cr, cc) :: stack, visited, component =>
    if cr < 0 ∨ (rows : Int) ≤ cr ∨ cc < 0 ∨ (cols : Int) ≤ cc ∨
        (cr.toNat, cc.toNat) ∈ visited ∨ matrix cr.toNat cc.toNat = false then
      floodFill matrix rows cols fuel stack visited component
    else
      floodFill matrix rows cols fuel
        ((cr, cc + 1) :: (cr, cc - 1) :: (cr + 1, cc) :: (cr - 1, cc) :: stack)
        ((cr.toNat, cc.toNat) :: visited)
        (component ++ [(cr.toNat, cc.toNat)])

/-- Iteration budget that always suffices for one flood-fill call. -/
def ffFuel (rows cols : Nat) : Nat :=
  5 * (rows * cols) + 2

/-- The flood-fill call made by both scans when they hit the filled,
unvisited cell `(r, c)`: stack seeded with that cell, empty component. -/
def ffRun (matrix : Nat → Nat → Bool) (rows cols : Nat) (r c : Nat)
    (visited : List (Nat × Nat)) : List (Nat × Nat) × List (Nat × Nat) :=
  floodFill matrix rows cols (ffFuel rows cols) [((r : Int), (c : Int))] visited []

/-- Embedding of the rounded-corners branch of the FIRST source variant of
`generateSVG` (the one that appends a bounding-box rectangle to `path` as
soon as a component has been collected): a row-major scan that flood-fills
each filled, unvisited cell. -/
def svgScan1 (matrix : Nat → Nat → Bool) (rows cols cellSize rc : Nat) :
    List (Nat × Nat) → List (Nat × Nat) → String → String
  | [], _, path => path
  | (r, c) :: rest, visited, path =>
    if matrix r c = true ∧ (r, c) ∉ visited then
      let res := ffRun matrix rows cols r c visited
      svgScan1 matrix rows cols cellSize rc rest res.2
        (if 0 < res.1.length then path ++ roundedRect cellSize rc res.1 else path)
    else
      svgScan1 matrix rows cols cellSize rc rest visited path

/-- Embedding of the component-collection scan of the SECOND source variant
of `generateSVG` (which first pushes every discovered component into
`components` and only then serializes them). -/
def findComponentsGo (matrix : Nat → Nat → Bool) (rows cols : Nat) :
    List (Nat × Nat) → List (Nat × Nat) → List (List (Nat × Nat)) →
    List (List (Nat × Nat)) × List (Nat × Nat)
  | [], visited, comps => (comps, visited)
  | (r, c) :: rest, visited, comps =>
    if matrix r c = true ∧ (r, c) ∉ visited then
      let res := ffRun matrix rows cols r c visited
      findComponentsGo matrix rows cols rest res.2
        (if 0 < res.1.length then comps ++ [res.1] else comps)
    else
      findComponentsGo matrix rows cols rest visited comps

/-- Connected components discovered by the exporter's row-major flood-fill
scan, in discovery order. -/
def findComponents (matrix : Nat → Nat → Bool) (rows cols : Nat) :
    List (List (Nat × Nat)) :=
  (findComponentsGo matrix rows cols (cellsRowMajor rows cols) [] []).1

/-- Embedding of the FIRST source variant of `generateSVG` (App.tsx lines
231-296): with rounded corners, one bounding-box rectangle per flood-filled
component, appended during the scan; without, one plain rectangle per
filled cell in row-major order. -/
def generateSVG (grid : Grid) (cols rows roundedCorners cellSize : Nat) : String :=
  let matrix := fun r c => cellFilled grid r c
  let width := cols * cellSize
  let height := rows * cellSize
  if 0 < roundedCorners then
    svgOpen width height ++
      svgScan1 matrix rows cols cellSize roundedCorners (cellsRowMajor rows cols) [] "" ++
      "</svg>"
  else
    svgOpen width height ++ plainRects matrix rows cols cellSize ++ "</svg>"

/-- Embedding of the SECOND source variant of `generateSVG` (App.tsx lines
927-1013): the components are collected first and then serialized, with a
special case for single-cell components. -/
def generateSVG2 (grid : Grid) (cols rows roundedCorners cellSize : Nat) : String :=
  let matrix := fun r c => cellFilled grid r c
  let width := cols * cellSize
  let height := rows * cellSize
  if 0 < roundedCorners then
    let comps := findComponents matrix rows cols
    svgOpen width height ++
      comps.foldl (fun paths comp => paths ++ componentRect cellSize roundedCorners comp) "" ++
      "</svg>"
  else
    svgOpen width height ++ plainRects matrix rows cols cellSize ++ "</svg>"

/-- Occurrence test for the two-character sequence `a b` inside a character
list (used to state that the zero-radius rectangles carry no `rx`
attribute). -/
def hasSeq2 (a b : Char) : List Char → Bool
  | [] => false
  | [_] => false
  | x :: y :: rest => (x == a && y == b) || hasSeq2 a b (y :: rest)

/-! ## Connected components, mathematically -/

/-- Good cell: in bounds and filled. -/
def goodCell (matrix : Nat → Nat → Bool) (rows cols : Nat) (p : Nat × Nat) : Prop :=
  p.1 < rows ∧ p.2 < cols ∧ matrix p.1 p.2 = true

/-- Four-adjacency of grid positions (up/down/left/right, no diagonals). -/
def adjacentP (p q : Nat × Nat) : Prop :=
  (p.1 = q.1 ∧ (p.2 + 1 = q.2 ∨ q.2 + 1 = p.2)) ∨
  (p.2 = q.2 ∧ (p.1 + 1 = q.1 ∨ q.1 + 1 = p.1))

/-- One step between good cells. -/
def stepRel (matrix : Nat → Nat → Bool) (rows cols : Nat) (p q : Nat × Nat) : Prop :=
  goodCell matrix rows cols p ∧ goodCell matrix rows cols q ∧ adjacentP p q

/-- Reachability inside the filled part of the grid: the reflexive-transitive
closure of 4-adjacency between good cells. -/
def Reaches (matrix : Nat → Nat → Bool) (rows cols : Nat) : (Nat × Nat) → (Nat × Nat) → Prop :=
  Relation.ReflTransGen (stepRel matrix rows cols)

/-- Mathematical 4-connected component of filled cells: the set of cells
reachable from some good cell. -/
def IsMathComponent (matrix : Nat → Nat → Bool) (rows cols : Nat)
    (K : Nat × Nat → Prop) : Prop :=
  ∃ s, goodCell matrix rows cols s ∧ ∀ t, K t ↔ Reaches matrix rows cols s t

/-- Row-major linear index of a position. -/
def rmIdx (cols : Nat) (p : Nat × Nat) : Nat :=
  p.1 * cols + p.2

/-- Row-major index of the top-left-most cell of a component. -/
def minIdx (cols : Nat) (component : List (Nat × Nat)) : Nat :=
  minList (component.map (rmIdx cols))

/-- Validity of a stack entry of the flood fill: in bounds (as integers) and
filled. -/
def okI (matrix : Nat → Nat → Bool) (rows cols : Nat) (q : Int × Int) : Prop :=
  0 ≤ q.1 ∧ q.1 < (rows : Int) ∧ 0 ≤ q.2 ∧ q.2 < (cols : Int) ∧
    matrix q.1.toNat q.2.toNat = true

/-- Natural coordinates of a stack entry. -/
def toP (q : Int × Int) : Nat × Nat :=
  (q.1.toNat, q.2.toNat)

/-- In-bounds cells not yet visited; the termination measure of the flood
fill counts these. -/
def unvis (rows cols : Nat) (visited : List (Nat × Nat)) : Finset (Nat × Nat) :=
  (Finset.range rows ×ˢ Finset.range cols).filter fun p => p ∉ visited

/-! ## Basic lemmas -/

lemma adjacentP_symm {p q : Nat × Nat} (h : adjacentP p q) : adjacentP q p := by
  rcases h with ⟨h1, h2⟩ | ⟨h1, h2⟩
  · exact Or.inl ⟨h1.symm, h2.symm⟩
  · exact Or.inr ⟨h1.symm, h2.symm⟩

lemma stepRel_symm (matrix : Nat → Nat → Bool) (rows cols : Nat) :
    Symmetric (stepRel matrix rows cols) := by
  intro p q ⟨hp, hq, hadj⟩
  exact ⟨hq, hp, adjacentP_symm hadj⟩

lemma reaches_symm (matrix : Nat → Nat → Bool) (rows cols : Nat)
    {p q : Nat × Nat} (h : Reaches matrix rows cols p q) :
    Reaches matrix rows cols q p :=
  Relation.ReflTransGen.symmetric (stepRel_symm matrix rows cols) h

lemma reaches_trans (matrix : Nat → Nat → Bool) (rows cols : Nat)
    {p q r : Nat × Nat} (h1 : Reaches matrix rows cols p q)
    (h2 : Reaches matrix rows cols q r) :
    Reaches matrix rows cols p r :=
  Relation.ReflTransGen.trans h1 h2

lemma reaches_good (matrix : Nat → Nat → Bool) (rows cols : Nat)
    {s t : Nat × Nat} (hs : goodCell matrix rows cols s)
    (h : Reaches matrix rows cols s t) : goodCell matrix rows cols t := by
  induction h with
  | refl => exact hs
  | tail _ hstep _ => exact hstep.2.1

lemma okI_toP {matrix : Nat → Nat → Bool} {rows cols : Nat} {q : Int × Int}
    (h : okI matrix rows cols q) : goodCell matrix rows cols (toP q) := by
  obtain ⟨h1, h2, h3, h4, h5⟩ := h
  refine ⟨?_, ?_, h5⟩
  · show q.1.toNat < rows
    omega
  · show q.2.toNat < cols
    omega

lemma okI_cast {matrix : Nat → Nat → Bool} {rows cols : Nat} {p : Nat × Nat}
    (h : goodCell matrix rows cols p) :
    okI matrix rows cols ((p.1 : Int), (p.2 : Int)) ∧
      toP ((p.1 : Int), (p.2 : Int)) = p := by
  obtain ⟨h1, h2, h3⟩ := h
  refine ⟨⟨by omega, by omega, by omega, by omega, ?_⟩, ?_⟩
  · simpa using h3
  · simp [toP]

lemma foldl_min_le_init : ∀ (xs : List Nat) (a : Nat), xs.foldl Nat.min a ≤ a := by
  intro xs
  induction xs with
  | nil => intro a; simp
  | cons x xs ih =>
    intro a
    calc (x :: xs).foldl Nat.min a = xs.foldl Nat.min (Nat.min a x) := rfl
    _ ≤ Nat.min a x := ih (Nat.min a x)
    _ ≤ a := Nat.min_le_left a x

lemma foldl_min_le_mem : ∀ (xs : List Nat) (a y : Nat), y ∈ xs → xs.foldl Nat.min a ≤ y := by
  intro xs
  induction xs with
  | nil => intro a y h; cases h
  | cons x xs ih =>
    intro a y h
    rcases List.mem_cons.mp h with rfl | h
    · calc (y :: xs).foldl Nat.min a = xs.foldl Nat.min (Nat.min a y) := rfl
      _ ≤ Nat.min a y := foldl_min_le_init xs (Nat.min a y)
      _ ≤ y := Nat.min_le_right a y
    · exact ih (Nat.min a x) y h

lemma foldl_min_mem : ∀ (xs : List Nat) (a : Nat),
    xs.foldl Nat.min a = a ∨ xs.foldl Nat.min a ∈ xs := by
  intro xs
  induction xs with
  | nil => intro a; exact Or.inl rfl
  | cons x xs ih =>
    intro a
    rcases ih (Nat.min a x) with h | h
    · rcases Nat.le_total a x with hax | hxa
      · refine Or.inl ?_
        rw [List.foldl_cons, h]
        exact Nat.min_eq_left hax
      · refine Or.inr (List.mem_cons.mpr (Or.inl ?_))
        rw [List.foldl_cons, h]
        exact Nat.min_eq_right hxa
    · exact Or.inr (List.mem_cons.mpr (Or.inr h))

lemma minList_le {l : List Nat} {y : Nat} (h : y ∈ l) : minList l ≤ y := by
  cases l with
  | nil => cases h
  | cons x xs =>
    rcases List.mem_cons.mp h with rfl | h
    · exact foldl_min_le_init xs y
    · exact foldl_min_le_mem xs x y h

lemma minList_mem {l : List Nat} (h : l ≠ []) : minList l ∈ l := by
  cases l with
  | nil => exact absurd rfl h
  | cons x xs =>
    rcases foldl_min_mem xs x with h1 | h1
    · exact List.mem_cons.mpr (Or.inl h1)
    · exact List.mem_cons.mpr (Or.inr h1)

lemma minIdx_eq_of_min {cols : Nat} {C : List (Nat × Nat)} {h : Nat × Nat}
    (hmem : h ∈ C) (hmin : ∀ p ∈ C, rmIdx cols h ≤ rmIdx cols p) :
    minIdx cols C = rmIdx cols h := by
  have h1 : minIdx cols C ≤ rmIdx cols h :=
    minList_le (List.mem_map.mpr ⟨h, hmem, rfl⟩)
  have h2 : rmIdx cols h ≤ minIdx cols C := by
    have hne : C.map (rmIdx cols) ≠ [] := by
      cases C with
      | nil => cases hmem
      | cons a l => simp
    obtain ⟨p, hp, hpe⟩ := List.mem_map.mp (minList_mem hne)
    rw [minIdx, ← hpe]
    exact hmin p hp
  omega

lemma rmIdx_lt_row {cols : Nat} {p q : Nat × Nat} (hp : p.2 < cols)
    (h : p.1 < q.1) : rmIdx cols p < rmIdx cols q := by
  have hmul : (p.1 + 1) * cols ≤ q.1 * cols := Nat.mul_le_mul_right cols h
  calc rmIdx cols p = p.1 * cols + p.2 := rfl
  _ < p.1 * cols + cols := by omega
  _ = (p.1 + 1) * cols := by ring
  _ ≤ q.1 * cols := hmul
  _ ≤ q.1 * cols + q.2 := by omega

lemma rmIdx_lt_col {cols : Nat} {p q : Nat × Nat} (h1 : p.1 = q.1)
    (h2 : p.2 < q.2) : rmIdx cols p < rmIdx cols q := by
  rw [rmIdx, rmIdx, h1]
  omega

lemma mem_cellsRowMajor {rows cols : Nat} {p : Nat × Nat} :
    p ∈ cellsRowMajor rows cols ↔ p.1 < rows ∧ p.2 < cols := by
  constructor
  · intro h
    obtain ⟨r, hr, h2⟩ := List.mem_flatMap.mp h
    obtain ⟨c, hc, h3⟩ := List.mem_map.mp h2
    subst h3
    exact ⟨List.mem_range.mp hr, List.mem_range.mp hc⟩
  · intro ⟨h1, h2⟩
    exact List.mem_flatMap.mpr ⟨p.1, List.mem_range.mpr h1,
      List.mem_map.mpr ⟨p.2, List.mem_range.mpr h2, rfl⟩⟩

lemma pairwise_cellsRowMajor (rows cols : Nat) :
    (cellsRowMajor rows cols).Pairwise (fun p q => rmIdx cols p < rmIdx cols q) := by
  induction rows with
  | zero => simp [cellsRowMajor]
  | succ n ih =>
    have hsplit : cellsRowMajor (n + 1) cols =
        cellsRowMajor n cols ++ (List.range cols).map (fun c => (n, c)) := by
      rw [cellsRowMajor, List.range_succ, List.flatMap_append]
      simp [cellsRowMajor]
    rw [hsplit, List.pairwise_append]
    refine ⟨ih, ?_, ?_⟩
    · rw [List.pairwise_map]
      refine (List.pairwise_lt_range cols).imp ?_
      intro a b hab
      exact rmIdx_lt_col rfl hab
    · intro p hp q hq
      obtain ⟨hp1, hp2⟩ := mem_cellsRowMajor.mp hp
      obtain ⟨c, _hc, hq2⟩ := List.mem_map.mp hq
      subst hq2
      exact rmIdx_lt_row hp2 hp1

lemma unvis_card_le (rows cols : Nat) (visited : List (Nat × Nat)) :
    (unvis rows cols visited).card ≤ rows * cols := by
  calc (unvis rows cols visited).card
      ≤ (Finset.range rows ×ˢ Finset.range cols).card := Finset.card_filter_le _ _
  _ = rows * cols := by simp [Finset.card_product]

lemma unvis_cons_card {rows cols : Nat} {visited : List (Nat × Nat)} {p : Nat × Nat}
    (h1 : p.1 < rows) (h2 : p.2 < cols) (h3 : p ∉ visited) :
    (unvis rows cols (p :: visited)).card + 1 = (unvis rows cols visited).card := by
  have hmem : p ∈ unvis rows cols visited := by
    rw [unvis, Finset.mem_filter, Finset.mem_product]
    exact ⟨⟨Finset.mem_range.mpr h1, Finset.mem_range.mpr h2⟩, h3⟩
  have herase : unvis rows cols (p :: visited) = (unvis rows cols visited).erase p := by
    ext q
    rw [unvis, Finset.mem_filter, Finset.mem_erase, unvis, Finset.mem_filter]
    constructor
    · intro ⟨hq1, hq2⟩
      rw [List.mem_cons] at hq2
      push_neg at hq2
      exact ⟨hq2.1, hq1, hq2.2⟩
    · intro ⟨hq1, hq2, hq3⟩
      refine ⟨hq2, ?_⟩
      rw [List.mem_cons]
      push_neg
      exact ⟨hq1, hq3⟩
  rw [herase, Finset.card_erase_of_mem hmem]
  have := Finset.card_pos.mpr ⟨p, hmem⟩
  omega

/-! ## Flood fill lemmas -/

lemma ff_comp_prefix (matrix : Nat → Nat → Bool) (rows cols : Nat) :
    ∀ (fuel : Nat) (St : List (Int × Int)) (Vis Comp : List (Nat × Nat)),
      ∃ Δ, (floodFill matrix rows cols fuel St Vis Comp).1 = Comp ++ Δ := by
  intro fuel
  induction fuel with
  | zero =>
    intro St Vis Comp
    exact ⟨[], by simp [floodFill]⟩
  | succ f ih =>
    intro St Vis Comp
    cases St with
    | nil => exact ⟨[], by simp [floodFill]⟩
    | cons q stack =>
      obtain ⟨cr, cc⟩ := q
      by_cases hC : cr < 0 ∨ (rows : Int) ≤ cr ∨ cc < 0 ∨ (cols : Int) ≤ cc ∨
          (cr.toNat, cc.toNat) ∈ Vis ∨ matrix cr.toNat cc.toNat = false
      · obtain ⟨Δ, hΔ⟩ := ih stack Vis Comp
        refine ⟨Δ, ?_⟩
        simp only [floodFill]
        rw [if_pos hC]
        exact hΔ
      · obtain ⟨Δ, hΔ⟩ := ih
          ((cr, cc + 1) :: (cr, cc - 1) :: (cr + 1, cc) :: (cr - 1, cc) :: stack)
          ((cr.toNat, cc.toNat) :: Vis) (Comp ++ [(cr.toNat, cc.toNat)])
        refine ⟨(cr.toNat, cc.toNat) :: Δ, ?_⟩
        simp only [floodFill]
        rw [if_neg hC, hΔ]
        simp

lemma skip_to_vis {matrix : Nat → Nat → Bool} {rows cols : Nat} {cr cc : Int}
    {Vis : List (Nat × Nat)} {n : Nat × Nat}
    (hgood : goodCell matrix rows cols n)
    (h1 : (n.1 : Int) = cr) (h2 : (n.2 : Int) = cc)
    (hC : cr < 0 ∨ (rows : Int) ≤ cr ∨ cc < 0 ∨ (cols : Int) ≤ cc ∨
      (cr.toNat, cc.toNat) ∈ Vis ∨ matrix cr.toNat cc.toNat = false) :
    n ∈ Vis := by
  obtain ⟨hg1, hg2, hg3⟩ := hgood
  have e1 : cr.toNat = n.1 := by omega
  have e2 : cc.toNat = n.2 := by omega
  rcases hC with h | h | h | h | h | h
  · omega
  · omega
  · omega
  · omega
  · rw [e1, e2] at h
    simpa using h
  · rw [e1, e2, hg3] at h
    simp at h

lemma ff_main (matrix : Nat → Nat → Bool) (rows cols : Nat) (s : Nat × Nat) :
    ∀ (fuel : Nat) (St : List (Int × Int)) (Vis Comp : List (Nat × Nat)),
      St.length + 5 * (unvis rows cols Vis).card < fuel →
      (∀ q ∈ St, okI matrix rows cols q → Reaches matrix rows cols s (toP q)) →
      (∀ p ∈ Comp, ∀ n : Nat × Nat, goodCell matrix rows cols n → adjacentP p n →
        n ∈ Vis ∨ ((n.1 : Int), (n.2 : Int)) ∈ St) →
      ∃ Δ : List (Nat × Nat),
        (floodFill matrix rows cols fuel St Vis Comp).1 = Comp ++ Δ ∧
        (∀ p : Nat × Nat,
          p ∈ (floodFill matrix rows cols fuel St Vis Comp).2 ↔ p ∈ Δ ∨ p ∈ Vis) ∧
        (∀ p ∈ Δ, goodCell matrix rows cols p ∧ p ∉ Vis ∧ Reaches matrix rows cols s p) ∧
        Δ.Nodup ∧
        (∀ p ∈ Comp ++ Δ, ∀ n : Nat × Nat, goodCell matrix rows cols n → adjacentP p n →
          n ∈ (floodFill matrix rows cols fuel St Vis Comp).2) := by
  intro fuel
  induction fuel with
  | zero =>
    intro St Vis Comp Hm _ _
    omega
  | succ f ih =>
    intro St Vis Comp Hm Hstack Hic
    cases St with
    | nil =>
      have hff : floodFill matrix rows cols (f + 1) [] Vis Comp = (Comp, Vis) := rfl
      refine ⟨[], ?_, ?_, ?_, List.nodup_nil, ?_⟩
      · rw [hff]
        simp
      · intro p
        rw [hff]
        simp
      · intro p hp
        cases hp
      · intro p hp n hgood hadj
        rw [hff]
        rcases Hic p (by simpa using hp) n hgood hadj with h | h
        · exact h
        · cases h
    | cons q stack =>
      obtain ⟨cr, cc⟩ := q
      by_cases hC : cr < 0 ∨ (rows : Int) ≤ cr ∨ cc < 0 ∨ (cols : Int) ≤ cc ∨
          (cr.toNat, cc.toNat) ∈ Vis ∨ matrix cr.toNat cc.toNat = false
      · -- skipped entry: recurse on the remaining stack
        have hff : floodFill matrix rows cols (f + 1) ((cr, cc) :: stack) Vis Comp =
            floodFill matrix rows cols f stack Vis Comp := by
          simp only [floodFill]
          rw [if_pos hC]
        have Hm' : stack.length + 5 * (unvis rows cols Vis).card < f := by
          simp only [List.length_cons] at Hm
          omega
        have Hstack' : ∀ q ∈ stack, okI matrix rows cols q →
            Reaches matrix rows cols s (toP q) :=
          fun q hq => Hstack q (List.mem_cons.mpr (Or.inr hq))
        have Hic' : ∀ p ∈ Comp, ∀ n : Nat × Nat, goodCell matrix rows cols n →
            adjacentP p n → n ∈ Vis ∨ ((n.1 : Int), (n.2 : Int)) ∈ stack := by
          intro p hp n hgood hadj
          rcases Hic p hp n hgood hadj with h | h
          · exact Or.inl h
          · rcases List.mem_cons.mp h with heq | hmem
            · rw [Prod.mk.injEq] at heq
              exact Or.inl (skip_to_vis hgood heq.1 heq.2 hC)
            · exact Or.inr hmem
        obtain ⟨Δ, ih1, ih2, ih3, ih4, ih5⟩ := ih stack Vis Comp Hm' Hstack' Hic'
        rw [hff]
        exact ⟨Δ, ih1, ih2, ih3, ih4, ih5⟩
      · -- marked entry: the cell joins the component, its neighbors the stack
        have hbounds : 0 ≤ cr ∧ cr < (rows : Int) ∧ 0 ≤ cc ∧ cc < (cols : Int) := by
          push_neg at hC
          exact ⟨by omega, by omega, by omega, by omega⟩
        have hnv : (cr.toNat, cc.toNat) ∉ Vis := by
          push_neg at hC
          exact hC.2.2.2.2.1
        have hmat : matrix cr.toNat cc.toNat = true := by
          push_neg at hC
          cases hmx : matrix cr.toNat cc.toNat
          · exact absurd hmx hC.2.2.2.2.2
          · rfl
        have hgoodp : goodCell matrix rows cols (cr.toNat, cc.toNat) :=
          ⟨by omega, by omega, hmat⟩
        have hreachp : Reaches matrix rows cols s (cr.toNat, cc.toNat) :=
          Hstack (cr, cc) (List.mem_cons.mpr (Or.inl rfl))
            ⟨hbounds.1, hbounds.2.1, hbounds.2.2.1, hbounds.2.2.2, hmat⟩
        have hff : floodFill matrix rows cols (f + 1) ((cr, cc) :: stack) Vis Comp =
            floodFill matrix rows cols f
              ((cr, cc + 1) :: (cr, cc - 1) :: (cr + 1, cc) :: (cr - 1, cc) :: stack)
              ((cr.toNat, cc.toNat) :: Vis) (Comp ++ [(cr.toNat, cc.toNat)]) := by
          simp only [floodFill]
          rw [if_neg hC]
        have Hm' : ((cr, cc + 1) :: (cr, cc - 1) :: (cr + 1, cc) :: (cr - 1, cc) :: stack).length +
            5 * (unvis rows cols ((cr.toNat, cc.toNat) :: Vis)).card < f := by
          have hcard := @unvis_cons_card rows cols Vis (cr.toNat, cc.toNat)
            (by show cr.toNat < rows; omega) (by show cc.toNat < cols; omega) hnv
          simp only [List.length_cons] at Hm ⊢
          omega
        have Hstack' : ∀ q ∈ (cr, cc + 1) :: (cr, cc - 1) :: (cr + 1, cc) :: (cr - 1, cc) :: stack,
            okI matrix rows cols q → Reaches matrix rows cols s (toP q) := by
          intro q hq hok
          have hgoodq : goodCell matrix rows cols (toP q) := okI_toP hok
          simp only [List.mem_cons] at hq
          rcases hq with rfl | rfl | rfl | rfl | hq
          · refine Relation.ReflTransGen.tail hreachp ⟨hgoodp, hgoodq, ?_⟩
            refine Or.inl ⟨?_, Or.inl ?_⟩
            · show cr.toNat = (cr, cc + 1).1.toNat
              rfl
            · show cc.toNat + 1 = (cc + 1).toNat
              omega
          · obtain ⟨ho1, ho2, ho3, ho4, _⟩ := hok
            refine Relation.ReflTransGen.tail hreachp ⟨hgoodp, hgoodq, ?_⟩
            refine Or.inl ⟨rfl, Or.inr ?_⟩
            · show (cc - 1).toNat + 1 = cc.toNat
              simp only at ho3
              omega
          · refine Relation.ReflTransGen.tail hreachp ⟨hgoodp, hgoodq, ?_⟩
            refine Or.inr ⟨rfl, Or.inl ?_⟩
            · show cr.toNat + 1 = (cr + 1).toNat
              omega
          · obtain ⟨ho1, ho2, ho3, ho4, _⟩ := hok
            refine Relation.ReflTransGen.tail hreachp ⟨hgoodp, hgoodq, ?_⟩
            refine Or.inr ⟨rfl, Or.inr ?_⟩
            · show (cr - 1).toNat + 1 = cr.toNat
              simp only at ho1
              omega
          · exact Hstack q (List.mem_cons.mpr (Or.inr hq)) hok
        have Hic' : ∀ p ∈ Comp ++ [(cr.toNat, cc.toNat)], ∀ n : Nat × Nat,
            goodCell matrix rows cols n → adjacentP p n →
            n ∈ (cr.toNat, cc.toNat) :: Vis ∨
              ((n.1 : Int), (n.2 : Int)) ∈
                (cr, cc + 1) :: (cr, cc - 1) :: (cr + 1, cc) :: (cr - 1, cc) :: stack := by
          intro p hp n hgood hadj
          rcases List.mem_append.mp hp with hp | hp
          · rcases Hic p hp n hgood hadj with h | h
            · exact Or.inl (List.mem_cons.mpr (Or.inr h))
            · rcases List.mem_cons.mp h with heq | hmem
              · rw [Prod.mk.injEq] at heq
                refine Or.inl (List.mem_cons.mpr (Or.inl ?_))
                have := heq.1
                have := heq.2
                rw [Prod.mk.injEq]
                constructor
                · omega
                · omega
              · exact Or.inr (by simp only [List.mem_cons]; tauto)
          · have hpe : p = (cr.toNat, cc.toNat) := by simpa using hp
            subst hpe
            rcases hadj with ⟨ha1, ha2 | ha2⟩ | ⟨ha1, ha2 | ha2⟩
            · -- right neighbor
              refine Or.inr (List.mem_cons.mpr (Or.inl ?_))
              simp only at ha1 ha2
              rw [Prod.mk.injEq]
              omega
            · -- left neighbor
              refine Or.inr (List.mem_cons.mpr (Or.inr (List.mem_cons.mpr (Or.inl ?_))))
              simp only at ha1 ha2
              rw [Prod.mk.injEq]
              omega
            · -- down neighbor
              refine Or.inr (List.mem_cons.mpr (Or.inr (List.mem_cons.mpr (Or.inr
                (List.mem_cons.mpr (Or.inl ?_))))))
              simp only at ha1 ha2
              rw [Prod.mk.injEq]
              omega
            · -- up neighbor
              refine Or.inr (List.mem_cons.mpr (Or.inr (List.mem_cons.mpr (Or.inr
                (List.mem_cons.mpr (Or.inr (List.mem_cons.mpr (Or.inl ?_))))))))
              simp only at ha1 ha2
              rw [Prod.mk.injEq]
              omega
        obtain ⟨Δ, ih1, ih2, ih3, ih4, ih5⟩ := ih
          ((cr, cc + 1) :: (cr, cc - 1) :: (cr + 1, cc) :: (cr - 1, cc) :: stack)
          ((cr.toNat, cc.toNat) :: Vis) (Comp ++ [(cr.toNat, cc.toNat)]) Hm' Hstack' Hic'
        rw [hff]
        refine ⟨(cr.toNat, cc.toNat) :: Δ, ?_, ?_, ?_, ?_, ?_⟩
        · rw [ih1]
          simp
        · intro p
          rw [ih2 p]
          simp only [List.mem_cons]
          tauto
        · intro p hp
          rcases List.mem_cons.mp hp with rfl | hp
          · exact ⟨hgoodp, hnv, hreachp⟩
          · obtain ⟨hg, hv, hr⟩ := ih3 p hp
            refine ⟨hg, fun hmem => hv (List.mem_cons.mpr (Or.inr hmem)), hr⟩
        · rw [List.nodup_cons]
          refine ⟨fun hmem => ?_, ih4⟩
          exact (ih3 _ hmem).2.1 (List.mem_cons.mpr (Or.inl rfl))
        · intro p hp n hgood hadj
          refine ih5 p ?_ n hgood hadj
          simp only [List.mem_append, List.mem_cons] at hp ⊢
          tauto

lemma ff_start_mem (matrix : Nat → Nat → Bool) (rows cols : Nat) (fuel : Nat)
    (stack : List (Int × Int)) (Vis Comp : List (Nat × Nat)) (cr cc : Int)
    (hfuel : 0 < fuel) (hok : okI matrix rows cols (cr, cc))
    (hnv : (cr.toNat, cc.toNat) ∉ Vis) :
    (cr.toNat, cc.toNat) ∈
      (floodFill matrix rows cols fuel ((cr, cc) :: stack) Vis Comp).1 := by
  obtain ⟨f, rfl⟩ : ∃ f, fuel = f + 1 := ⟨fuel - 1, by omega⟩
  obtain ⟨h1, h2, h3, h4, h5⟩ := hok
  have hC : ¬ (cr < 0 ∨ (rows : Int) ≤ cr ∨ cc < 0 ∨ (cols : Int) ≤ cc ∨
      (cr.toNat, cc.toNat) ∈ Vis ∨ matrix cr.toNat cc.toNat = false) := by
    push_neg
    refine ⟨by omega, by omega, by omega, by omega, hnv, by simp [h5]⟩
  have hff : floodFill matrix rows cols (f + 1) ((cr, cc) :: stack) Vis Comp =
      floodFill matrix rows cols f
        ((cr, cc + 1) :: (cr, cc - 1) :: (cr + 1, cc) :: (cr - 1, cc) :: stack)
        ((cr.toNat, cc.toNat) :: Vis) (Comp ++ [(cr.toNat, cc.toNat)]) := by
    simp only [floodFill]
    rw [if_neg hC]
  rw [hff]
  obtain ⟨Δ, hΔ⟩ := ff_comp_prefix matrix rows cols f
    ((cr, cc + 1) :: (cr, cc - 1) :: (cr + 1, cc) :: (cr - 1, cc) :: stack)
    ((cr.toNat, cc.toNat) :: Vis) (Comp ++ [(cr.toNat, cc.toNat)])
  rw [hΔ]
  simp

lemma ff_complete (matrix : Nat → Nat → Bool) (rows cols : Nat) (s : Nat × Nat)
    (fuel : Nat) (Vis : List (Nat × Nat))
    (hgood : goodCell matrix rows cols s) (hsv : s ∉ Vis)
    (Hm : 1 + 5 * (unvis rows cols Vis).card < fuel)
    (Hclosed : ∀ v ∈ Vis, ∀ n, goodCell matrix rows cols n → adjacentP v n → n ∈ Vis) :
    ∀ t, Reaches matrix rows cols s t →
      t ∈ (floodFill matrix rows cols fuel [((s.1 : Int), (s.2 : Int))] Vis []).1 := by
  obtain ⟨hok, htoP⟩ := okI_cast hgood
  obtain ⟨Δ, ih1, ih2, ih3, ih4, ih5⟩ := ff_main matrix rows cols s fuel
    [((s.1 : Int), (s.2 : Int))] Vis []
    (by simpa using Hm)
    (by
      intro q hq hokq
      rcases List.mem_cons.mp hq with rfl | h
      · rw [htoP]
        exact Relation.ReflTransGen.refl
      · cases h)
    (by intro p hp; cases hp)
  have hsmem : s ∈ (floodFill matrix rows cols fuel [((s.1 : Int), (s.2 : Int))] Vis []).1 := by
    have hconv : ((s.1 : Int).toNat, (s.2 : Int).toNat) = s := by simp
    have := ff_start_mem matrix rows cols fuel [] Vis [] (s.1 : Int) (s.2 : Int)
      (by omega) hok (by rw [hconv]; exact hsv)
    rwa [hconv] at this
  intro t ht
  have ht' : Relation.ReflTransGen (stepRel matrix rows cols) s t := ht
  clear ht
  induction ht' with
  | refl => exact hsmem
  | @tail b c hab hbc ihtail =>
    obtain ⟨hgb, hgc, hadjbc⟩ := hbc
    have hbΔ : b ∈ Δ := by
      rw [ih1] at ihtail
      simpa using ihtail
    have hc2 : c ∈ (floodFill matrix rows cols fuel [((s.1 : Int), (s.2 : Int))] Vis []).2 :=
      ih5 b (by simpa using hbΔ) c hgc hadjbc
    rcases (ih2 c).mp hc2 with hcΔ | hcV
    · rw [ih1]
      simpa using hcΔ
    · have hbV : b ∈ Vis := Hclosed c hcV b hgb (adjacentP_symm hadjbc)
      exact absurd hbV (ih3 b hbΔ).2.1

lemma fcg_acc (matrix : Nat → Nat → Bool) (rows cols : Nat) :
    ∀ (rem : List (Nat × Nat)) (Vis : List (Nat × Nat)) (comps : List (List (Nat × Nat))),
      (findComponentsGo matrix rows cols rem Vis comps).1 =
        comps ++ (findComponentsGo matrix rows cols rem Vis []).1 ∧
      (findComponentsGo matrix rows cols rem Vis comps).2 =
        (findComponentsGo matrix rows cols rem Vis []).2 := by
  intro rem
  induction rem with
  | nil =>
    intro Vis comps
    constructor <;> simp [findComponentsGo]
  | cons hd rest ih =>
    intro Vis comps
    obtain ⟨r, c⟩ := hd
    by_cases hC : matrix r c = true ∧ (r, c) ∉ Vis
    · simp only [findComponentsGo]
      rw [if_pos hC, if_pos hC]
      simp only [List.nil_append]
      obtain ⟨ihA1, ihA2⟩ := ih (ffRun matrix rows cols r c Vis).2
        (if 0 < (ffRun matrix rows cols r c Vis).1.length then
          comps ++ [(ffRun matrix rows cols r c Vis).1]
        else comps)
      obtain ⟨ihB1, ihB2⟩ := ih (ffRun matrix rows cols r c Vis).2
        (if 0 < (ffRun matrix rows cols r c Vis).1.length then
          [(ffRun matrix rows cols r c Vis).1]
        else [])
      rw [ihA1, ihB1, ihA2, ihB2]
      refine ⟨?_, rfl⟩
      by_cases hlen : 0 < (ffRun matrix rows cols r c Vis).1.length
      · rw [if_pos hlen, if_pos hlen]
        simp
      · rw [if_neg hlen, if_neg hlen]
        simp
    · simp only [findComponentsGo]
      rw [if_neg hC, if_neg hC]
      exact ih Vis comps

lemma ffRun_spec (matrix : Nat → Nat → Bool) (rows cols : Nat) (r c : Nat)
    (Vis : List (Nat × Nat))
    (hgood : goodCell matrix rows cols (r, c)) (hnv : (r, c) ∉ Vis)
    (HVc : ∀ v ∈ Vis, ∀ n, goodCell matrix rows cols n → adjacentP v n → n ∈ Vis) :
    (r, c) ∈ (ffRun matrix rows cols r c Vis).1 ∧
    (∀ t, t ∈ (ffRun matrix rows cols r c Vis).1 ↔ Reaches matrix rows cols (r, c) t) ∧
    (ffRun matrix rows cols r c Vis).1.Nodup ∧
    (∀ p : Nat × Nat, p ∈ (ffRun matrix rows cols r c Vis).2 ↔
      p ∈ (ffRun matrix rows cols r c Vis).1 ∨ p ∈ Vis) ∧
    (∀ p ∈ (ffRun matrix rows cols r c Vis).1, p ∉ Vis) ∧
    (∀ p ∈ (ffRun matrix rows cols r c Vis).1, ∀ n : Nat × Nat,
      goodCell matrix rows cols n → adjacentP p n → n ∈ (ffRun matrix rows cols r c Vis).2) ∧
    (∀ p ∈ (ffRun matrix rows cols r c Vis).1, goodCell matrix rows cols p) := by
  obtain ⟨hok, htoP⟩ := okI_cast hgood
  have hmeas : 1 + 5 * (unvis rows cols Vis).card < ffFuel rows cols := by
    have := unvis_card_le rows cols Vis
    rw [ffFuel]
    omega
  obtain ⟨Δ, hm1, hm2, hm3, hm4, hm5⟩ := ff_main matrix rows cols (r, c)
    (ffFuel rows cols) [((r : Int), (c : Int))] Vis []
    (by simpa using hmeas)
    (by
      intro q hq hokq
      rcases List.mem_cons.mp hq with rfl | h
      · have hcv : toP ((r : Int), (c : Int)) = (r, c) := by simp [toP]
        rw [hcv]
        exact Relation.ReflTransGen.refl
      · cases h)
    (by intro p hp; cases hp)
  have hΔ1 : (ffRun matrix rows cols r c Vis).1 = Δ := by
    rw [ffRun, hm1]
    simp
  have hΔ2 : ∀ p : Nat × Nat, p ∈ (ffRun matrix rows cols r c Vis).2 ↔ p ∈ Δ ∨ p ∈ Vis := by
    intro p
    rw [ffRun]
    exact hm2 p
  have hrcmem : (r, c) ∈ (ffRun matrix rows cols r c Vis).1 := by
    have hconv : ((r : Int).toNat, (c : Int).toNat) = (r, c) := by simp
    have hst := ff_start_mem matrix rows cols (ffFuel rows cols) [] Vis [] (r : Int) (c : Int)
      (by rw [ffFuel]; omega) hok (by rw [hconv]; exact hnv)
    rw [hconv] at hst
    rw [ffRun]
    exact hst
  have hcompl := ff_complete matrix rows cols (r, c) (ffFuel rows cols) Vis hgood hnv hmeas HVc
  refine ⟨hrcmem, ?_, ?_, ?_, ?_, ?_, ?_⟩
  · intro t
    constructor
    · intro ht
      rw [hΔ1] at ht
      exact (hm3 t ht).2.2
    · intro ht
      rw [ffRun]
      exact hcompl t ht
  · rw [hΔ1]
    exact hm4
  · intro p
    rw [hΔ2 p, hΔ1]
  · intro p hp
    rw [hΔ1] at hp
    exact (hm3 p hp).2.1
  · intro p hp n hgn hadj
    rw [hΔ1] at hp
    rw [ffRun]
    exact hm5 p (by simpa using hp) n hgn hadj
  · intro p hp
    rw [hΔ1] at hp
    exact (hm3 p hp).1

lemma fcg_step_pos (matrix : Nat → Nat → Bool) (rows cols r c : Nat)
    (rest : List (Nat × Nat)) (Vis : List (Nat × Nat)) (comps : List (List (Nat × Nat)))
    (hC : matrix r c = true ∧ (r, c) ∉ Vis)
    (hlen : 0 < (ffRun matrix rows cols r c Vis).1.length) :
    findComponentsGo matrix rows cols ((r, c) :: rest) Vis comps =
      findComponentsGo matrix rows cols rest (ffRun matrix rows cols r c Vis).2
        (comps ++ [(ffRun matrix rows cols r c Vis).1]) := by
  simp only [findComponentsGo]
  rw [if_pos hC, if_pos hlen]

lemma fcg_step_neg (matrix : Nat → Nat → Bool) (rows cols r c : Nat)
    (rest : List (Nat × Nat)) (Vis : List (Nat × Nat)) (comps : List (List (Nat × Nat)))
    (hC : ¬ (matrix r c = true ∧ (r, c) ∉ Vis)) :
    findComponentsGo matrix rows cols ((r, c) :: rest) Vis comps =
      findComponentsGo matrix rows cols rest Vis comps := by
  simp only [findComponentsGo]
  rw [if_neg hC]

lemma fcg_spec (matrix : Nat → Nat → Bool) (rows cols : Nat) :
    ∀ (rem : List (Nat × Nat)) (Vis : List (Nat × Nat)) (comps : List (List (Nat × Nat))),
      (∀ v ∈ Vis, goodCell matrix rows cols v) →
      (∀ v ∈ Vis, ∀ n : Nat × Nat, goodCell matrix rows cols n → adjacentP v n → n ∈ Vis) →
      (∀ p : Nat × Nat, p ∈ Vis ↔ ∃ C ∈ comps, p ∈ C) →
      (∀ C ∈ comps, ∃ s0, goodCell matrix rows cols s0 ∧
        (∀ t, t ∈ C ↔ Reaches matrix rows cols s0 t) ∧ C.Nodup ∧
        s0 ∈ C ∧ (∀ p ∈ C, rmIdx cols s0 ≤ rmIdx cols p)) →
      comps.Pairwise (fun C D => minIdx cols C < minIdx cols D) →
      (∀ C ∈ comps, ∀ q ∈ rem, minIdx cols C < rmIdx cols q) →
      rem.Pairwise (fun p q => rmIdx cols p < rmIdx cols q) →
      (∀ q ∈ rem, q.1 < rows ∧ q.2 < cols) →
      (∀ p : Nat × Nat, goodCell matrix rows cols p → p ∉ rem → p ∈ Vis) →
      (∀ v ∈ (findComponentsGo matrix rows cols rem Vis comps).2, goodCell matrix rows cols v) ∧
      (∀ p : Nat × Nat, p ∈ (findComponentsGo matrix rows cols rem Vis comps).2 ↔
        ∃ C ∈ (findComponentsGo matrix rows cols rem Vis comps).1, p ∈ C) ∧
      (∀ C ∈ (findComponentsGo matrix rows cols rem Vis comps).1, ∃ s0,
        goodCell matrix rows cols s0 ∧
        (∀ t, t ∈ C ↔ Reaches matrix rows cols s0 t) ∧ C.Nodup ∧
        s0 ∈ C ∧ (∀ p ∈ C, rmIdx cols s0 ≤ rmIdx cols p)) ∧
      ((findComponentsGo matrix rows cols rem Vis comps).1).Pairwise
        (fun C D => minIdx cols C < minIdx cols D) ∧
      (∀ p : Nat × Nat, goodCell matrix rows cols p →
        p ∈ (findComponentsGo matrix rows cols rem Vis comps).2) := by
  intro rem
  induction rem with
  | nil =>
    intro Vis comps HVg HVc HVu HCc HCs _HCrem _Hsort _Hbnd Hproc
    have hff : findComponentsGo matrix rows cols [] Vis comps = (comps, Vis) := rfl
    rw [hff]
    exact ⟨HVg, HVu, HCc, HCs, fun p hp => Hproc p hp (by simp)⟩
  | cons hd rest ih =>
    intro Vis comps HVg HVc HVu HCc HCs HCrem Hsort Hbnd Hproc
    obtain ⟨r, c⟩ := hd
    by_cases hC : matrix r c = true ∧ (r, c) ∉ Vis
    · have hbnd_rc := Hbnd (r, c) (List.mem_cons.mpr (Or.inl rfl))
      have hgood_rc : goodCell matrix rows cols (r, c) := ⟨hbnd_rc.1, hbnd_rc.2, hC.1⟩
      obtain ⟨hS0, hS1, hS2, hS3, hS4, hS5, hS6⟩ :=
        ffRun_spec matrix rows cols r c Vis hgood_rc hC.2 HVc
      have hminat : ∀ p ∈ (ffRun matrix rows cols r c Vis).1,
          rmIdx cols (r, c) ≤ rmIdx cols p := by
        intro p hp
        by_contra hlt
        push_neg at hlt
        have hpgood : goodCell matrix rows cols p := hS6 p hp
        have hpnv : p ∉ Vis := hS4 p hp
        have hpnotin : p ∉ (r, c) :: rest := by
          intro hmem
          rcases List.mem_cons.mp hmem with rfl | hmem2
          · omega
          · have := (List.pairwise_cons.mp Hsort).1 p hmem2
            omega
        exact hpnv (Hproc p hpgood hpnotin)
      have hminIdx : minIdx cols (ffRun matrix rows cols r c Vis).1 = rmIdx cols (r, c) :=
        minIdx_eq_of_min hS0 hminat
      have hlen : 0 < (ffRun matrix rows cols r c Vis).1.length :=
        List.length_pos.mpr (List.ne_nil_of_mem hS0)
      rw [fcg_step_pos matrix rows cols r c rest Vis comps hC hlen]
      refine ih (ffRun matrix rows cols r c Vis).2
        (comps ++ [(ffRun matrix rows cols r c Vis).1]) ?_ ?_ ?_ ?_ ?_ ?_ ?_ ?_ ?_
      · -- visited cells are good
        intro v hv
        rcases (hS3 v).mp hv with hin | hin
        · exact hS6 v hin
        · exact HVg v hin
      · -- visited set is adjacency-closed
        intro v hv n hgn hadj
        rcases (hS3 v).mp hv with hin | hin
        · exact hS5 v hin n hgn hadj
        · exact (hS3 n).mpr (Or.inr (HVc v hin n hgn hadj))
      · -- visited = union of components
        intro p
        rw [hS3 p]
        constructor
        · rintro (hin | hin)
          · exact ⟨(ffRun matrix rows cols r c Vis).1, by simp, hin⟩
          · obtain ⟨C, hCm, hpC⟩ := (HVu p).mp hin
            exact ⟨C, List.mem_append.mpr (Or.inl hCm), hpC⟩
        · rintro ⟨C, hCm, hpC⟩
          rcases List.mem_append.mp hCm with hCm | hCm
          · exact Or.inr ((HVu p).mpr ⟨C, hCm, hpC⟩)
          · have hCe : C = (ffRun matrix rows cols r c Vis).1 := by simpa using hCm
            subst hCe
            exact Or.inl hpC
      · -- every component is a reachability class with min attained
        intro C hCm
        rcases List.mem_append.mp hCm with hCm | hCm
        · exact HCc C hCm
        · have hCe : C = (ffRun matrix rows cols r c Vis).1 := by simpa using hCm
          subst hCe
          exact ⟨(r, c), hgood_rc, hS1, hS2, hS0, hminat⟩
      · -- components sorted by top-left index
        rw [List.pairwise_append]
        refine ⟨HCs, List.pairwise_singleton _ _, ?_⟩
        intro C hCm D hD
        have hDe : D = (ffRun matrix rows cols r c Vis).1 := by simpa using hD
        subst hDe
        rw [hminIdx]
        exact HCrem C hCm (r, c) (List.mem_cons.mpr (Or.inl rfl))
      · -- component minima precede the remaining scan positions
        intro C hCm q hq
        rcases List.mem_append.mp hCm with hCm | hCm
        · exact HCrem C hCm q (List.mem_cons.mpr (Or.inr hq))
        · have hCe : C = (ffRun matrix rows cols r c Vis).1 := by simpa using hCm
          subst hCe
          rw [hminIdx]
          exact (List.pairwise_cons.mp Hsort).1 q hq
      · exact (List.pairwise_cons.mp Hsort).2
      · exact fun q hq => Hbnd q (List.mem_cons.mpr (Or.inr hq))
      · -- all good cells processed so far are visited
        intro p hgp hpnot
        by_cases hpe : p = (r, c)
        · subst hpe
          exact (hS3 (r, c)).mpr (Or.inl hS0)
        · have hpnotin : p ∉ (r, c) :: rest := by
            intro hmem
            rcases List.mem_cons.mp hmem with h | h
            · exact hpe h
            · exact hpnot h
          exact (hS3 p).mpr (Or.inr (Hproc p hgp hpnotin))
    · rw [fcg_step_neg matrix rows cols r c rest Vis comps hC]
      refine ih Vis comps HVg HVc HVu HCc HCs ?_ ?_ ?_ ?_
      · exact fun C hCm q hq => HCrem C hCm q (List.mem_cons.mpr (Or.inr hq))
      · exact (List.pairwise_cons.mp Hsort).2
      · exact fun q hq => Hbnd q (List.mem_cons.mpr (Or.inr hq))
      · intro p hgp hpnot
        by_cases hpe : p = (r, c)
        · subst hpe
          rcases not_and_or.mp hC with h | h
        
          · exact absurd hgp.2.2 h
          · exact not_not.mp h
        · have hpnotin : p ∉ (r, c) :: rest := by
            intro hmem
            rcases List.mem_cons.mp hmem with h | h
            · exact hpe h
            · exact hpnot h
          exact Hproc p hgp hpnotin

lemma findComponents_spec (matrix : Nat → Nat → Bool) (rows cols : Nat) :
    (∀ C ∈ findComponents matrix rows cols, ∃ s0, goodCell matrix rows cols s0 ∧
      (∀ t, t ∈ C ↔ Reaches matrix rows cols s0 t) ∧ C.Nodup ∧
      s0 ∈ C ∧ (∀ p ∈ C, rmIdx cols s0 ≤ rmIdx cols p)) ∧
    (findComponents matrix rows cols).Pairwise (fun C D => minIdx cols C < minIdx cols D) ∧
    (∀ p : Nat × Nat, goodCell matrix rows cols p ↔
      ∃ C ∈ findComponents matrix rows cols, p ∈ C) := by
  obtain ⟨G1, G2, G3, G4, G5⟩ := fcg_spec matrix rows cols (cellsRowMajor rows cols) [] []
    (by simp) (by simp) (by simp) (by simp) (by simp) (by simp)
    (pairwise_cellsRowMajor rows cols)
    (fun q hq => mem_cellsRowMajor.mp hq)
    (by
      intro p hp hnot
      exact absurd (mem_cellsRowMajor.mpr ⟨hp.1, hp.2.1⟩) hnot)
  refine ⟨G3, G4, ?_⟩
  intro p
  constructor
  · intro hp
    exact (G2 p).mp (G5 p hp)
  · rintro ⟨C, hCm, hpC⟩
    obtain ⟨s0, hs0g, hiff, _, _, _⟩ := G3 C hCm
    exact reaches_good matrix rows cols hs0g ((hiff p).mp hpC)

lemma findComponents_disjoint (matrix : Nat → Nat → Bool) (rows cols : Nat) :
    (findComponents matrix rows cols).Pairwise (fun C D => ∀ p, p ∈ C → p ∉ D) := by
  obtain ⟨G3, G4, _⟩ := findComponents_spec matrix rows cols
  refine G4.imp_of_mem ?_
  intro C D hCm hDm hlt p hpC hpD
  obtain ⟨s0, hg0, hiff0, _, hs00, hmin0⟩ := G3 C hCm
  obtain ⟨s1, hg1, hiff1, _, hs11, hmin1⟩ := G3 D hDm
  have h0p := (hiff0 p).mp hpC
  have h1p := (hiff1 p).mp hpD
  have h01 : Reaches matrix rows cols s0 s1 :=
    reaches_trans matrix rows cols h0p (reaches_symm matrix rows cols h1p)
  have hs1C : s1 ∈ C := (hiff0 s1).mpr h01
  have hs0D : s0 ∈ D := (hiff1 s0).mpr (reaches_symm matrix rows cols h01)
  have e1 : rmIdx cols s0 ≤ rmIdx cols s1 := hmin0 s1 hs1C
  have e2 : rmIdx cols s1 ≤ rmIdx cols s0 := hmin1 s0 hs0D
  have heq : minIdx cols C = minIdx cols D := by
    rw [minIdx_eq_of_min hs00 hmin0, minIdx_eq_of_min hs11 hmin1]
    omega
  omega

lemma countP_eq_one_of_mem {p : Nat × Nat} :
    ∀ (l : List (List (Nat × Nat))),
      l.Pairwise (fun C D => ∀ x, x ∈ C → x ∉ D) →
      ∀ C ∈ l, p ∈ C → l.countP (fun D => decide (p ∈ D)) = 1 := by
  intro l
  induction l with
  | nil =>
    intro _ C hC
    cases hC
  | cons A rest ih =>
    intro hpw C hCm hpC
    obtain ⟨hhead, htail⟩ := List.pairwise_cons.mp hpw
    rcases List.mem_cons.mp hCm with rfl | hCm2
    · have hz : rest.countP (fun D => decide (p ∈ D)) = 0 := by
        rw [List.countP_eq_zero]
        intro D hD
        simp only [decide_eq_true_eq]
        exact hhead D hD p hpC
      rw [List.countP_cons, hz]
      simp [hpC]
    · have hpA : p ∉ A := fun hpA => (hhead C hCm2 p hpA) hpC
      rw [List.countP_cons, ih htail C hCm2 hpC]
      simp [hpA]

/-- C6: the components discovered by the exporter's flood fill partition the
filled cells: a position inside the grid that is filled belongs to exactly
one discovered component, any other position to none, and no component
lists a cell twice. -/
theorem claim_C6_components_partition :
    ∀ (grid : Grid) (rows cols : Nat) (p : Nat × Nat),
      ((findComponents (fun r c => cellFilled grid r c) rows cols).countP
          (fun C => decide (p ∈ C)) =
        if p.1 < rows ∧ p.2 < cols ∧ cellFilled grid p.1 p.2 = true then 1 else 0) ∧
      (∀ C ∈ findComponents (fun r c => cellFilled grid r c) rows cols, C.Nodup) := by
  intro grid rows cols p
  obtain ⟨G3, _, Gcov⟩ := findComponents_spec (fun r c => cellFilled grid r c) rows cols
  constructor
  · by_cases hg : p.1 < rows ∧ p.2 < cols ∧ cellFilled grid p.1 p.2 = true
    · rw [if_pos hg]
      obtain ⟨C, hCm, hpC⟩ := (Gcov p).mp hg
      exact countP_eq_one_of_mem _ (findComponents_disjoint _ rows cols) C hCm hpC
    · rw [if_neg hg, List.countP_eq_zero]
      intro C hCm
      simp only [decide_eq_true_eq]
      intro hpC
      exact hg ((Gcov p).mpr ⟨C, hCm, hpC⟩)
  · intro C hCm
    obtain ⟨s0, _, _, hnodup, _, _⟩ := G3 C hCm
    exact hnodup

/-- Witness for C6 on a 2x2 grid with two diagonal filled cells. -/
theorem claim_C6_components_partition_witness :
    ((findComponents
        (fun r c => cellFilled [[some true, some false], [some false, some true]] r c) 2 2).countP
        (fun C => decide (((0, 0) : Nat × Nat) ∈ C)) =
      if (0 : Nat) < 2 ∧ (0 : Nat) < 2 ∧
          cellFilled [[some true, some false], [some false, some true]] 0 0 = true then 1
      else 0) ∧
    ([((0 : Nat), (0 : Nat))] : List (Nat × Nat)).Nodup :=
  ⟨(claim_C6_components_partition [[some true, some false], [some false, some true]] 2 2 (0, 0)).1,
   (claim_C6_components_partition [[some true, some false], [some false, some true]] 2 2 (0, 0)).2
     [(0, 0)] (by decide)⟩

/-! ## String concatenation lemmas -/

lemma foldl_append_shift : ∀ (l : List String) (a b : String),
    l.foldl (fun x s => x ++ s) (a ++ b) = a ++ l.foldl (fun x s => x ++ s) b := by
  intro l
  induction l with
  | nil =>
    intro a b
    simp
  | cons x xs ih =>
    intro a b
    simp only [List.foldl_cons]
    rw [String.append_assoc]
    exact ih a (b ++ x)

lemma foldl_eq_strJoin (l : List String) (init : String) :
    l.foldl (fun x s => x ++ s) init = init ++ String.join l := by
  have h0 : init ++ "" = init := String.append_empty init
  calc l.foldl (fun x s => x ++ s) init
      = l.foldl (fun x s => x ++ s) (init ++ "") := by rw [h0]
  _ = init ++ l.foldl (fun x s => x ++ s) "" := foldl_append_shift l init ""
  _ = init ++ String.join l := rfl

lemma strJoin_cons (s : String) (l : List String) :
    String.join (s :: l) = s ++ String.join l := by
  have h1 : String.join (s :: l) = l.foldl (fun x t => x ++ t) ("" ++ s) := rfl
  rw [h1]
  have h2 : ("" : String) ++ s = s := rfl
  rw [h2, foldl_eq_strJoin]

lemma strJoin_append (l1 l2 : List String) :
    String.join (l1 ++ l2) = String.join l1 ++ String.join l2 := by
  have h1 : String.join (l1 ++ l2) = (l1 ++ l2).foldl (fun x t => x ++ t) "" := rfl
  rw [h1, List.foldl_append]
  have h2 : l1.foldl (fun x t => x ++ t) "" = String.join l1 := rfl
  rw [h2, foldl_eq_strJoin]

lemma foldl_append_map {α : Type} (f : α → String) :
    ∀ (l : List α) (init : String),
      l.foldl (fun acc x => acc ++ f x) init = init ++ String.join (l.map f) := by
  intro l
  induction l with
  | nil =>
    intro init
    show init = init ++ ""
    rw [String.append_empty]
  | cons x xs ih =>
    intro init
    simp only [List.foldl_cons, List.map_cons]
    rw [ih (init ++ f x), strJoin_cons, String.append_assoc]

lemma foldl_filter_append {α : Type} (f : α → String) (pred : α → Bool) :
    ∀ (l : List α) (init : String),
      l.foldl (fun acc p => if pred p = true then acc ++ f p else acc) init =
        init ++ String.join ((l.filter pred).map f) := by
  intro l
  induction l with
  | nil =>
    intro init
    show init = init ++ ""
    rw [String.append_empty]
  | cons x xs ih =>
    intro init
    simp only [List.foldl_cons]
    by_cases hx : pred x = true
    · rw [if_pos hx, ih (init ++ f x), List.filter_cons, if_pos hx, List.map_cons,
        strJoin_cons, String.append_assoc]
    · rw [if_neg hx, ih init, List.filter_cons, if_neg hx]

/-! ## The two exporter variants produce the same output -/

lemma componentRect_eq (cs rc : Nat) : ∀ C : List (Nat × Nat),
    componentRect cs rc C = roundedRect cs rc C := by
  intro C
  match C with
  | [] => rfl
  | [p] =>
    show componentRect cs rc [p] = roundedRect cs rc [p]
    rw [componentRect, roundedRect]
    simp [minList, maxList, Nat.sub_self]
  | p :: q :: rest =>
    rw [componentRect, if_neg (by simp)]

lemma svgScan1_join (matrix : Nat → Nat → Bool) (rows cols cellSize rc : Nat) :
    ∀ (rem : List (Nat × Nat)) (Vis : List (Nat × Nat)) (path : String),
      svgScan1 matrix rows cols cellSize rc rem Vis path =
        path ++ String.join
          (((findComponentsGo matrix rows cols rem Vis []).1).map (roundedRect cellSize rc)) := by
  intro rem
  induction rem with
  | nil =>
    intro Vis path
    show path = path ++ ""
    rw [String.append_empty]
  | cons hd rest ih =>
    intro Vis path
    obtain ⟨r, c⟩ := hd
    by_cases hC : matrix r c = true ∧ (r, c) ∉ Vis
    · have hscan : svgScan1 matrix rows cols cellSize rc ((r, c) :: rest) Vis path =
          svgScan1 matrix rows cols cellSize rc rest (ffRun matrix rows cols r c Vis).2
            (if 0 < (ffRun matrix rows cols r c Vis).1.length then
              path ++ roundedRect cellSize rc (ffRun matrix rows cols r c Vis).1
            else path) := by
        simp only [svgScan1]
        rw [if_pos hC]
      have hfcg : (findComponentsGo matrix rows cols ((r, c) :: rest) Vis []).1 =
          (if 0 < (ffRun matrix rows cols r c Vis).1.length then
            [(ffRun matrix rows cols r c Vis).1]
          else []) ++
          (findComponentsGo matrix rows cols rest (ffRun matrix rows cols r c Vis).2 []).1 := by
        simp only [findComponentsGo]
        rw [if_pos hC]
        simp only [List.nil_append]
        exact (fcg_acc matrix rows cols rest _ _).1
      rw [hscan, ih, hfcg, List.map_append, strJoin_append]
      by_cases hlen : 0 < (ffRun matrix rows cols r c Vis).1.length
      · rw [if_pos hlen, if_pos hlen]
        rw [List.map_cons, List.map_nil, strJoin_cons]
        have hje : String.join ([] : List String) = "" := rfl
        rw [hje, String.append_empty, String.append_assoc]
      · rw [if_neg hlen, if_neg hlen]
        rw [List.map_nil]
        have hje : String.join ([] : List String) = "" := rfl
        rw [hje]
        have hempty : ("" : String) ++
            String.join (((findComponentsGo matrix rows cols rest
              (ffRun matrix rows cols r c Vis).2 []).1).map (roundedRect cellSize rc)) =
            String.join (((findComponentsGo matrix rows cols rest
              (ffRun matrix rows cols r c Vis).2 []).1).map (roundedRect cellSize rc)) := rfl
        rw [hempty]
    · have hscan : svgScan1 matrix rows cols cellSize rc ((r, c) :: rest) Vis path =
          svgScan1 matrix rows cols cellSize rc rest Vis path := by
        simp only [svgScan1]
        rw [if_neg hC]
      have hfcg : (findComponentsGo matrix rows cols ((r, c) :: rest) Vis []).1 =
          (findComponentsGo matrix rows cols rest Vis []).1 := by
        simp only [findComponentsGo]
        rw [if_neg hC]
      rw [hscan, ih, hfcg]

lemma generateSVG_rounded (grid : Grid) (cols rows rc cs : Nat) (h : 0 < rc) :
    generateSVG grid cols rows rc cs =
      svgOpen (cols * cs) (rows * cs) ++
        String.join ((findComponents (fun r c => cellFilled grid r c) rows cols).map
          (roundedRect cs rc)) ++ "</svg>" := by
  rw [generateSVG]
  simp only [if_pos h]
  rw [svgScan1_join]
  have hempty : ("" : String) ++
      String.join (((findComponentsGo (fun r c => cellFilled grid r c) rows cols
        (cellsRowMajor rows cols) [] []).1).map (roundedRect cs rc)) =
      String.join (((findComponentsGo (fun r c => cellFilled grid r c) rows cols
        (cellsRowMajor rows cols) [] []).1).map (roundedRect cs rc)) := rfl
  rw [hempty]
  rfl

lemma generateSVG2_rounded (grid : Grid) (cols rows rc cs : Nat) (h : 0 < rc) :
    generateSVG2 grid cols rows rc cs =
      svgOpen (cols * cs) (rows * cs) ++
        String.join ((findComponents (fun r c => cellFilled grid r c) rows cols).map
          (componentRect cs rc)) ++ "</svg>" := by
  rw [generateSVG2]
  simp only [if_pos h]
  rw [foldl_append_map]
  have hempty : ("" : String) ++
      String.join ((findComponents (fun r c => cellFilled grid r c) rows cols).map
        (componentRect cs rc)) =
      String.join ((findComponents (fun r c => cellFilled grid r c) rows cols).map
        (componentRect cs rc)) := rfl
  rw [hempty]

/-- C10: the two versions of `generateSVG` present in the source produce
byte-identical SVG strings on every grid and every setting: the second
version's special case for single-cell components emits exactly the
bounding-box rectangle of that one cell, which is what the first version
emits, and the two versions agree everywhere else. -/
theorem claim_C10_variants_identical :
    ∀ (grid : Grid) (cols rows roundedCorners cellSize : Nat),
      generateSVG grid cols rows roundedCorners cellSize =
        generateSVG2 grid cols rows roundedCorners cellSize := by
  intro grid cols rows rc cs
  by_cases h : 0 < rc
  · rw [generateSVG_rounded grid cols rows rc cs h, generateSVG2_rounded grid cols rows rc cs h]
    have hmap : (findComponents (fun r c => cellFilled grid r c) rows cols).map
        (componentRect cs rc) =
        (findComponents (fun r c => cellFilled grid r c) rows cols).map
          (roundedRect cs rc) :=
      List.map_congr_left fun C _ => componentRect_eq cs rc C
    rw [hmap]
  · rw [generateSVG, generateSVG2]
    simp only [if_neg h]

/-! ## Unset cells export as empty cells -/

lemma eraseUnset_getD : ∀ (g : Grid) (r : Nat),
    (eraseUnset g).getD r [] = (g.getD r []).map fun cell => some (cell.getD false) := by
  intro g
  induction g with
  | nil =>
    intro r
    rfl
  | cons row rest ih =>
    intro r
    cases r with
    | zero => rfl
    | succ r2 => exact ih r2

lemma cellRow_eraseUnset : ∀ (l : List Cell) (c : Nat),
    (((l.map fun cell => some (cell.getD false)).getD c none).getD false) =
      ((l.getD c none).getD false) := by
  intro l
  induction l with
  | nil =>
    intro c
    rfl
  | cons x xs ih =>
    intro c
    cases c with
    | zero => cases x <;> rfl
    | succ c2 => exact ih c2

lemma cellFilled_eraseUnset (grid : Grid) :
    ∀ r c : Nat, cellFilled (eraseUnset grid) r c = cellFilled grid r c := by
  intro r c
  rw [cellFilled, cellFilled, eraseUnset_getD]
  exact cellRow_eraseUnset (grid.getD r []) c

lemma generateSVG_congr (g1 g2 : Grid)
    (h : ∀ r c : Nat, cellFilled g1 r c = cellFilled g2 r c)
    (cols rows rc cs : Nat) :
    generateSVG g1 cols rows rc cs = generateSVG g2 cols rows rc cs := by
  have hfun : (fun r c => cellFilled g1 r c) = fun r c => cellFilled g2 r c :=
    funext fun r => funext fun c => h r c
  rw [generateSVG, generateSVG, hfun]

lemma generateSVG2_congr (g1 g2 : Grid)
    (h : ∀ r c : Nat, cellFilled g1 r c = cellFilled g2 r c)
    (cols rows rc cs : Nat) :
    generateSVG2 g1 cols rows rc cs = generateSVG2 g2 cols rows rc cs := by
  have hfun : (fun r c => cellFilled g1 r c) = fun r c => cellFilled g2 r c :=
    funext fun r => funext fun c => h r c
  rw [generateSVG2, generateSVG2, hfun]

/-- C8: for export purposes an unset (`null`) cell behaves exactly like an
empty cell: replacing every unset cell by an empty one changes neither
exporter variant's output on any grid and any settings, and an unset cell is
never counted as filled (so no rectangle is ever emitted for it). -/
theorem claim_C8_unset_as_empty :
    ∀ (grid : Grid) (cols rows rc cs : Nat),
      generateSVG (eraseUnset grid) cols rows rc cs = generateSVG grid cols rows rc cs ∧
      generateSVG2 (eraseUnset grid) cols rows rc cs = generateSVG2 grid cols rows rc cs ∧
      ∀ r c : Nat, (grid.getD r []).getD c none = none → cellFilled grid r c = false := by
  intro grid cols rows rc cs
  refine ⟨generateSVG_congr _ _ (cellFilled_eraseUnset grid) cols rows rc cs,
    generateSVG2_congr _ _ (cellFilled_eraseUnset grid) cols rows rc cs, ?_⟩
  intro r c hcell
  rw [cellFilled, hcell]
  rfl

/-- Witness for C8 on a grid whose second row is still unset. -/
theorem claim_C8_unset_as_empty_witness :
    generateSVG (eraseUnset [[some true], [none]]) 1 2 0 10 =
      generateSVG [[some true], [none]] 1 2 0 10 ∧
    generateSVG2 (eraseUnset [[some true], [none]]) 1 2 3 10 =
      generateSVG2 [[some true], [none]] 1 2 3 10 ∧
    cellFilled [[some true], [none]] 1 0 = false :=
  ⟨(claim_C8_unset_as_empty [[some true], [none]] 1 2 0 10).1,
   (claim_C8_unset_as_empty [[some true], [none]] 1 2 3 10).2.1,
   (claim_C8_unset_as_empty [[some true], [none]] 1 2 0 10).2.2 1 0 (by decide)⟩

/-! ## The zero-radius path: no rx attribute, one rectangle per cell -/

/-- Test whether the last character of a list is `a`. -/
def lastIs (a : Char) : List Char → Bool
  | [] => false
  | [x] => x == a
  | _ :: rest => lastIs a rest

/-- Test whether the first character of a list is `b`. -/
def headIs (b : Char) : List Char → Bool
  | [] => false
  | x :: _ => x == b

lemma hasSeq2_append (a b : Char) : ∀ (s t : List Char),
    hasSeq2 a b (s ++ t) =
      (hasSeq2 a b s || hasSeq2 a b t || (lastIs a s && headIs b t)) := by
  intro s
  induction s with
  | nil =>
    intro t
    simp [hasSeq2, lastIs]
  | cons x xs ih =>
    intro t
    cases xs with
    | nil =>
      cases t with
      | nil => simp [hasSeq2, lastIs, headIs]
      | cons y t2 =>
        show ((x == a && y == b) || hasSeq2 a b (y :: t2)) = _
        simp [hasSeq2, lastIs, headIs, Bool.or_comm]
    | cons x2 xs2 =>
      show ((x == a && x2 == b) || hasSeq2 a b ((x2 :: xs2) ++ t)) =
        (((x == a && x2 == b) || hasSeq2 a b (x2 :: xs2)) || hasSeq2 a b t ||
          (lastIs a (x2 :: xs2) && headIs b t))
      rw [ih t]
      simp only [Bool.or_assoc]

lemma hasSeq2_false_of_not_mem (a b : Char) :
    ∀ l : List Char, a ∉ l → hasSeq2 a b l = false := by
  intro l
  induction l with
  | nil =>
    intro _
    rfl
  | cons x xs ih =>
    intro hmem
    cases xs with
    | nil => rfl
    | cons y rest =>
      have hxa : (x == a) = false :=
        beq_eq_false_iff_ne.mpr fun h => hmem (by rw [h]; exact List.mem_cons_self a _)
      show ((x == a && y == b) || hasSeq2 a b (y :: rest)) = false
      rw [hxa, Bool.false_and, Bool.false_or]
      exact ih fun h => hmem (List.mem_cons.mpr (Or.inr h))

lemma lastIs_false_of_not_mem (a : Char) :
    ∀ l : List Char, a ∉ l → lastIs a l = false := by
  intro l
  induction l with
  | nil =>
    intro _
    rfl
  | cons x xs ih =>
    intro hmem
    cases xs with
    | nil =>
      show (x == a) = false
      exact beq_eq_false_iff_ne.mpr fun h => hmem (by rw [h]; exact List.mem_cons_self a _)
    | cons y rest =>
      show lastIs a (y :: rest) = false
      exact ih fun h => hmem (List.mem_cons.mpr (Or.inr h))

lemma natToStrAux_digits : ∀ (fuel n : Nat) (ch : Char), ch ∈ natToStrAux fuel n →
    ∃ d, d < 10 ∧ ch = Nat.digitChar d := by
  intro fuel
  induction fuel with
  | zero =>
    intro n ch h
    cases h
  | succ f ih =>
    intro n ch h
    rw [natToStrAux] at h
    by_cases hn : n < 10
    · rw [if_pos hn] at h
      have he : ch = Nat.digitChar n := by simpa using h
      exact ⟨n, hn, he⟩
    · rw [if_neg hn] at h
      rcases List.mem_append.mp h with h | h
      · exact ih (n / 10) ch h
      · have he : ch = Nat.digitChar (n % 10) := by simpa using h
        exact ⟨n % 10, Nat.mod_lt n (by omega), he⟩

lemma digitChar_ne : ∀ d : Nat, d < 10 → Nat.digitChar d ≠ 'r' ∧ Nat.digitChar d ≠ 'x' := by
  decide

lemma natToStr_no_r (n : Nat) : 'r' ∉ (natToStr n).data := by
  intro hmem
  obtain ⟨d, hd, he⟩ := natToStrAux_digits (n + 1) n 'r' hmem
  exact (digitChar_ne d hd).1 he.symm

lemma natToStr_hasSeq2_rx (n : Nat) : hasSeq2 'r' 'x' (natToStr n).data = false :=
  hasSeq2_false_of_not_mem 'r' 'x' _ (natToStr_no_r n)

lemma natToStr_lastIs_r (n : Nat) : lastIs 'r' (natToStr n).data = false :=
  lastIs_false_of_not_mem 'r' _ (natToStr_no_r n)

lemma no_rx_plainRect (cs r c : Nat) : hasSeq2 'r' 'x' (plainRect cs r c).data = false := by
  have hA : hasSeq2 'r' 'x' ("<rect x=\"" : String).data = false := by decide
  have hB : hasSeq2 'r' 'x' ("\" y=\"" : String).data = false := by decide
  have hD : hasSeq2 'r' 'x' ("\" width=\"" : String).data = false := by decide
  have hE : hasSeq2 'r' 'x' ("\" height=\"" : String).data = false := by decide
  have hF : hasSeq2 'r' 'x' ("\" fill=\"#000\"/>" : String).data = false := by decide
  have lA : lastIs 'r' ("<rect x=\"" : String).data = false := by decide
  have lB : lastIs 'r' ("\" y=\"" : String).data = false := by decide
  have lD : lastIs 'r' ("\" width=\"" : String).data = false := by decide
  have lE : lastIs 'r' ("\" height=\"" : String).data = false := by decide
  rw [plainRect]
  simp only [String.data_append, List.append_assoc, hasSeq2_append,
    natToStr_hasSeq2_rx, natToStr_lastIs_r, hA, hB, hD, hE, hF, lA, lB, lD, lE,
    Bool.false_or, Bool.or_false, Bool.false_and, Bool.and_false]

lemma generateSVG_zero (grid : Grid) (cols rows cs : Nat) :
    generateSVG grid cols rows 0 cs =
      svgOpen (cols * cs) (rows * cs) ++
        String.join (((cellsRowMajor rows cols).filter
          (fun p => cellFilled grid p.1 p.2)).map
          (fun p => plainRect cs p.1 p.2)) ++ "</svg>" := by
  rw [generateSVG]
  simp only [Nat.lt_irrefl, if_false]
  rw [plainRects, foldl_filter_append]
  have hempty : ("" : String) ++
      String.join (((cellsRowMajor rows cols).filter
        (fun p => cellFilled grid p.1 p.2)).map
        (fun p => plainRect cs p.1 p.2)) =
      String.join (((cellsRowMajor rows cols).filter
        (fun p => cellFilled grid p.1 p.2)).map
        (fun p => plainRect cs p.1 p.2)) := rfl
  rw [hempty]

/-- C5: with corner radius 0 the exporter emits, inside the fixed SVG
envelope, exactly one `cellSize x cellSize` rectangle at
`(c * cellSize, r * cellSize)` for every filled cell, in row-major order
and with no merging; and none of these rectangles carries an `rx`
attribute (the character sequence `rx` never occurs in them), while the
rounded rectangles of the positive-radius path carry `rx` and `ry` equal to
the radius by construction. -/
theorem claim_C5_zero_radius_per_cell :
    (∀ (grid : Grid) (cols rows cellSize : Nat),
      generateSVG grid cols rows 0 cellSize =
        svgOpen (cols * cellSize) (rows * cellSize) ++
          String.join (((cellsRowMajor rows cols).filter
            (fun p => cellFilled grid p.1 p.2)).map
            (fun p => plainRect cellSize p.1 p.2)) ++ "</svg>") ∧
    (∀ (cellSize r c : Nat), hasSeq2 'r' 'x' (plainRect cellSize r c).data = false) :=
  ⟨fun grid cols rows cellSize => generateSVG_zero grid cols rows cellSize,
   fun cellSize r c => no_rx_plainRect cellSize r c⟩

/-! ## One bounding-box rectangle per component, in scan order -/

/-- C3: with a positive corner radius the exporter's output is the SVG
envelope around exactly one rectangle per discovered component — each being
the component's bounding box (min/max row and column scaled by the cell
size) with `rx = ry` equal to the radius, as `roundedRect` computes — and
the discovered components correspond one to one with the mathematical
4-connected components of filled cells: every such component is listed at
exactly one position of the component list. -/
theorem claim_C3_one_bbox_rect_per_component :
    ∀ (grid : Grid) (cols rows rc cs : Nat), 0 < rc →
      generateSVG grid cols rows rc cs =
        svgOpen (cols * cs) (rows * cs) ++
          String.join ((findComponents (fun r c => cellFilled grid r c) rows cols).map
            (roundedRect cs rc)) ++ "</svg>" ∧
      ∀ K : Nat × Nat → Prop,
        IsMathComponent (fun r c => cellFilled grid r c) rows cols K →
        ∃ i : Nat,
          i < (findComponents (fun r c => cellFilled grid r c) rows cols).length ∧
          (∀ p : Nat × Nat,
            p ∈ (findComponents (fun r c => cellFilled grid r c) rows cols).getD i [] ↔ K p) ∧
          ∀ j : Nat, j < (findComponents (fun r c => cellFilled grid r c) rows cols).length →
            (∀ p : Nat × Nat,
              p ∈ (findComponents (fun r c => cellFilled grid r c) rows cols).getD j [] ↔ K p) →
            j = i := by
  intro grid cols rows rc cs hrc
  refine ⟨generateSVG_rounded grid cols rows rc cs hrc, ?_⟩
  rintro K ⟨s, hsg, hKiff⟩
  obtain ⟨G3, _G4, Gcov⟩ := findComponents_spec (fun r c => cellFilled grid r c) rows cols
  obtain ⟨C, hCm, hsC⟩ := (Gcov s).mp hsg
  obtain ⟨i, hi, hCi⟩ := List.getElem_of_mem hCm
  have hgetDi : (findComponents (fun r c => cellFilled grid r c) rows cols).getD i [] = C := by
    rw [List.getD_eq_getElem?_getD, List.getElem?_eq_getElem hi, Option.getD_some, hCi]
  obtain ⟨s0, hs0g, hiff0, _, _, _⟩ := G3 C hCm
  have hs0s : Reaches (fun r c => cellFilled grid r c) rows cols s0 s := (hiff0 s).mp hsC
  have hCK : ∀ p : Nat × Nat, p ∈ C ↔ K p := by
    intro p
    rw [hiff0 p, hKiff p]
    constructor
    · intro h
      exact reaches_trans _ rows cols (reaches_symm _ rows cols hs0s) h
    · intro h
      exact reaches_trans _ rows cols hs0s h
  refine ⟨i, hi, by rw [hgetDi]; exact hCK, ?_⟩
  intro j hj hKj
  have hKs : K s := (hKiff s).mpr Relation.ReflTransGen.refl
  have hsj : s ∈ (findComponents (fun r c => cellFilled grid r c) rows cols).getD j [] :=
    (hKj s).mpr hKs
  have hsi : s ∈ (findComponents (fun r c => cellFilled grid r c) rows cols).getD i [] := by
    rw [hgetDi]
    exact hsC
  by_contra hne
  have hpw := List.pairwise_iff_getElem.mp
    (findComponents_disjoint (fun r c => cellFilled grid r c) rows cols)
  have hgetD : ∀ k (hk : k < (findComponents (fun r c => cellFilled grid r c) rows cols).length),
      (findComponents (fun r c => cellFilled grid r c) rows cols).getD k [] =
        (findComponents (fun r c => cellFilled grid r c) rows cols)[k] := by
    intro k hk
    rw [List.getD_eq_getElem?_getD, List.getElem?_eq_getElem hk, Option.getD_some]
  rcases Nat.lt_or_ge j i with hji | hge
  · have := hpw j i hj hi hji s (by rw [← hgetD j hj]; exact hsj)
    rw [← hgetD i hi] at this
    exact this hsi
  · have hij : i < j := by omega
    have := hpw i j hi hj hij s (by rw [← hgetD i hi]; exact hsi)
    rw [← hgetD j hj] at this
    exact this hsj

/-- C7: with a positive corner radius the rectangles appear in the output
in exactly the order of the component list produced by the row-major
flood-fill scan; that list is strictly ordered by the row-major index of
each component's top-left-most cell (the cell at which the scan first
discovered it), so the rectangle order is determined by the grid alone. -/
theorem claim_C7_emission_order :
    ∀ (grid : Grid) (cols rows rc cs : Nat), 0 < rc →
      generateSVG grid cols rows rc cs =
        svgOpen (cols * cs) (rows * cs) ++
          String.join ((findComponents (fun r c => cellFilled grid r c) rows cols).map
            (roundedRect cs rc)) ++ "</svg>" ∧
      (findComponents (fun r c => cellFilled grid r c) rows cols).Pairwise
        (fun C D => minIdx cols C < minIdx cols D) ∧
      ∀ C ∈ findComponents (fun r c => cellFilled grid r c) rows cols,
        ∃ p ∈ C, rmIdx cols p = minIdx cols C ∧ ∀ q ∈ C, rmIdx cols p ≤ rmIdx cols q := by
  intro grid cols rows rc cs hrc
  obtain ⟨G3, G4, _⟩ := findComponents_spec (fun r c => cellFilled grid r c) rows cols
  refine ⟨generateSVG_rounded grid cols rows rc cs hrc, G4, ?_⟩
  intro C hCm
  obtain ⟨s0, _, _, _, hs0C, hmin⟩ := G3 C hCm
  exact ⟨s0, hs0C, (minIdx_eq_of_min hs0C hmin).symm, hmin⟩

/-- Isolated two-by-two block of filled cells at the origin of a 5x5 grid. -/
def gridBlock : Grid :=
  [[some true, some true, some false, some false, some false],
   [some true, some true, some false, some false, some false],
   [some false, some false, some false, some false, some false],
   [some false, some false, some false, some false, some false],
   [some false, some false, some false, some false, some false]]

/-- Witness for C3: the isolated 2x2 block with cell size 10 and radius 3
yields exactly one rectangle `x=0,y=0,width=20,height=20,rx=3,ry=3`, and
the component containing the origin is listed exactly once. -/
theorem claim_C3_one_bbox_rect_per_component_witness :
    generateSVG gridBlock 5 5 3 10 =
      "<svg width=\"50\" height=\"50\" xmlns=\"http://www.w3.org/2000/svg\"><rect x=\"0\" y=\"0\" width=\"20\" height=\"20\" rx=\"3\" ry=\"3\" fill=\"#000\"/></svg>" ∧
    generateSVG gridBlock 5 5 3 10 =
      svgOpen (5 * 10) (5 * 10) ++
        String.join ((findComponents (fun r c => cellFilled gridBlock r c) 5 5).map
          (roundedRect 10 3)) ++ "</svg>" ∧
    ∃ i : Nat,
      i < (findComponents (fun r c => cellFilled gridBlock r c) 5 5).length ∧
      (∀ p : Nat × Nat,
        p ∈ (findComponents (fun r c => cellFilled gridBlock r c) 5 5).getD i [] ↔
          Reaches (fun r c => cellFilled gridBlock r c) 5 5 (0, 0) p) ∧
      ∀ j : Nat, j < (findComponents (fun r c => cellFilled gridBlock r c) 5 5).length →
        (∀ p : Nat × Nat,
          p ∈ (findComponents (fun r c => cellFilled gridBlock r c) 5 5).getD j [] ↔
            Reaches (fun r c => cellFilled gridBlock r c) 5 5 (0, 0) p) →
        j = i :=
  ⟨by rfl,
   (claim_C3_one_bbox_rect_per_component gridBlock 5 5 3 10 (by decide)).1,
   (claim_C3_one_bbox_rect_per_component gridBlock 5 5 3 10 (by decide)).2
     (fun p => Reaches (fun r c => cellFilled gridBlock r c) 5 5 (0, 0) p)
     ⟨(0, 0), ⟨by decide, by decide, by decide⟩, fun t => Iff.rfl⟩⟩

/-- Witness for C7 on the 2x2 block grid: the single component is emitted
with its top-left-most cell `(0,0)` attaining the minimal row-major index. -/
theorem claim_C7_emission_order_witness :
    generateSVG gridBlock 5 5 3 10 =
      svgOpen (5 * 10) (5 * 10) ++
        String.join ((findComponents (fun r c => cellFilled gridBlock r c) 5 5).map
          (roundedRect 10 3)) ++ "</svg>" ∧
    (findComponents (fun r c => cellFilled gridBlock r c) 5 5).Pairwise
      (fun C D => minIdx 5 C < minIdx 5 D) ∧
    ∃ p ∈ ([((0 : Nat), (0 : Nat)), (0, 1), (1, 1), (1, 0)] : List (Nat × Nat)),
      rmIdx 5 p = minIdx 5 [((0 : Nat), (0 : Nat)), (0, 1), (1, 1), (1, 0)] ∧
      ∀ q ∈ ([((0 : Nat), (0 : Nat)), (0, 1), (1, 1), (1, 0)] : List (Nat × Nat)),
        rmIdx 5 p ≤ rmIdx 5 q :=
  ⟨(claim_C7_emission_order gridBlock 5 5 3 10 (by decide)).1,
   (claim_C7_emission_order gridBlock 5 5 3 10 (by decide)).2.1,
   (claim_C7_emission_order gridBlock 5 5 3 10 (by decide)).2.2
     [(0, 0), (0, 1), (1, 1), (1, 0)] (by decide)⟩
